import Mathlib

/-!
Three-phase-commit session coordinator (`3pc/node/main.go`).

A shallow embedding of the coordinator node: the `State` enumeration and its
labels, the session store, the four HTTP handlers, the per-session worker
`SessionManager`, and the Go channel that connects a handler to a worker.

Conventions of the embedding.

* `State` is Go's `type State int`: a wrapper around an integer, so that values
  outside the four named constants exist (they render as `"unknown"`).
* The global `sessions` map is an association list with unique keys.
* A channel value (`chan State`) is a reference: an index into the list of
  allocated channels of the system. `none` is the nil channel, the zero value of
  the `Reciever` field.
* A handler is a function from the store and the request to what it does: the
  response it writes and, for `/prepare` and `/commit`, the one send it performs
  before writing. The system step then runs the send against the channel.
* A step of the process is one request served, or one pass of a worker through a
  branch of its `select` (the receive together with the store of the received event,
  or the timeout together with the store of `Aborted`). A handler whose send finds the
  buffer full stays blocked in the channel until a receive makes room.
* Time is a natural number of nanoseconds (`time.Duration`), advanced by `tick`.
-/

namespace ThreePC

/-! ## State and its labels -/

/-- Go `type State int`. -/
structure State where
  val : Int
deriving DecidableEq, Repr

/-- Constant `StateInitialized State = iota`. -/
def StateInitialized : State := ⟨0⟩

/-- Constant `StatePreparedToCommit`. -/
def StatePreparedToCommit : State := ⟨1⟩

/-- Constant `StateAborted`. -/
def StateAborted : State := ⟨2⟩

/-- Constant `StateCommited`. -/
def StateCommited : State := ⟨3⟩

/-- Method `func (s State) String() string`: the `switch` over the four constants with
its `default` branch. -/
def State.String (s : State) : String :=
  if s = StateInitialized then "Initialized"
  else if s = StatePreparedToCommit then "prepared-to-commit"
  else if s = StateAborted then "aborted"
  else if s = StateCommited then "commited"
  else "unknown"

/-! ## Session store -/

/-- Go `struct SessionMetadata`. `Reciever` is a channel reference, `none` the nil
channel. -/
structure SessionMetadata where
  State : State
  Reciever : Option Nat
deriving DecidableEq, Repr

/-- The type of the global `sessions` map, `map[string]SessionMetadata`. -/
abbrev Sessions := AList (fun _ : String => SessionMetadata)

/-- The zero value of `SessionMetadata`, which a map read of a missing key returns. -/
def SessionMetadata.zero : SessionMetadata := ⟨⟨0⟩, none⟩

/-- Function `readableSessions`: ranges over the store and writes each id with the label
of its state into a new map. -/
def readableSessions (sessions : Sessions) : AList (fun _ : String => String) :=
  sessions.entries.foldl (fun readableSession e => readableSession.insert e.1 e.2.State.String) ∅

/-- Constant `TIMEOUT = time.Second * 15`, in nanoseconds. -/
def TIMEOUT : Nat := 15 * 1000000000

/-! ## Responses and handlers -/

/-- What a handler writes as the body: nothing (`[]byte{}`), or the JSON encoding of a
map with string values, given by its fields in the order `json.Marshal` writes them
(sorted by key). -/
inductive Body where
  | empty
  | object (fields : List (String × String))
deriving DecidableEq, Repr

/-- The response a handler writes: the status code (200 unless `WriteHeader` is called)
and the body. -/
structure Response where
  status : Nat
  body : Body
deriving DecidableEq, Repr

/-- Value `http.StatusNotFound`. -/
def StatusNotFound : Nat := 404

/-- Value `http.StatusBadRequest`. -/
def StatusBadRequest : Nat := 400

/-- Value `http.StatusOK`, the status of a response written without `WriteHeader`. -/
def StatusOK : Nat := 200

/-- What a `/prepare` or `/commit` handler does: write a response and return, or first
send one event on a channel and then write the response. -/
inductive Outcome where
  | reply (r : Response)
  | send (ch : Option Nat) (event : State) (r : Response)
deriving DecidableEq, Repr

/-- The `/prepare` handler of `main`, for a request with the given method and
`x-session-id` header. -/
def handlePrepare (sessions : Sessions) (method id : String) : Outcome :=
  if method ≠ "PUT" then
    .reply ⟨StatusNotFound, .empty⟩
  else
    match sessions.lookup id with
    | none =>
      .reply ⟨StatusBadRequest, .object [("error", "no session id exists with the provided ID")]⟩
    | some sessionMetadata =>
      if sessionMetadata.State ≠ StateInitialized then
        .reply ⟨StatusBadRequest, .object [("error", "session cannot be prepared.")]⟩
      else
        .send sessionMetadata.Reciever StatePreparedToCommit
          ⟨StatusOK, .object [("sessionId", id), ("status", StatePreparedToCommit.String)]⟩

/-- The `/commit` handler of `main`, for a request with the given method and
`x-session-id` header. -/
def handleCommit (sessions : Sessions) (method id : String) : Outcome :=
  if method ≠ "PUT" then
    .reply ⟨StatusNotFound, .empty⟩
  else
    match sessions.lookup id with
    | none =>
      .reply ⟨StatusBadRequest, .object [("error", "no session id exists with the provided ID")]⟩
    | some sessionMetadata =>
      if sessionMetadata.State ≠ StatePreparedToCommit then
        .reply ⟨StatusBadRequest, .object [("error", "session cannot be commited.")]⟩
      else
        .send sessionMetadata.Reciever StateCommited
          ⟨StatusOK, .object [("sessionId", id), ("status", StateCommited.String)]⟩

/-- The order in which `json.Marshal` writes the keys of a map: by the characters of
the key, a key before every longer key that starts with it. -/
def jsonKeyLE : List Char → List Char → Bool
  | [], _ => true
  | _ :: _, [] => false
  | a :: as, b :: bs =>
    if a.toNat < b.toNat then true
    else if b.toNat < a.toNat then false
    else jsonKeyLE as bs

/-- The fields of the JSON object that `json.Marshal` writes for a map with string
values: the entries of the map, sorted by key. -/
def jsonFields (m : AList (fun _ : String => String)) : List (String × String) :=
  (m.entries.map (fun e => (e.1, e.2))).insertionSort
    (fun a b => jsonKeyLE a.1.toList b.1.toList = true)

/-- The `/sessions` handler of `main`. -/
def handleSessions (sessions : Sessions) (method : String) : Response :=
  if method ≠ "GET" then
    ⟨StatusNotFound, .empty⟩
  else
    ⟨StatusOK, .object (jsonFields (readableSessions sessions))⟩

/-- The goroutine started by `go SessionManager(sessionId, eventBus)`. -/
structure Spawn where
  id : String
  events : Nat
deriving DecidableEq, Repr

/-- The `/session` handler of `main`. `sessionId` is the string of the identifier that
`uuid.NewRandom` returned and `eventBus` the channel that `make(chan State, 1)` returned.
The result is the new store, the worker started, and the response. -/
def handleSession (sessions : Sessions) (method sessionId : String) (eventBus : Nat) :
    Sessions × Option Spawn × Response :=
  if method ≠ "POST" then
    (sessions, none, ⟨StatusNotFound, .object [("error", "wrong status code")]⟩)
  else
    (sessions.insert sessionId ⟨StateInitialized, some eventBus⟩,
      some ⟨sessionId, eventBus⟩,
      ⟨StatusOK, .object [("sessionId", sessionId)]⟩)

/-! ## The worker -/

/-- The `case event := <-events` branch of `SessionManager`: the new store, and whether
the function returns. -/
def SessionManager.onEvent (sessions : Sessions) (id : String) (event : State) :
    Sessions × Bool :=
  let metadata := (sessions.lookup id).getD SessionMetadata.zero
  let metadata := { metadata with State := event }
  (sessions.insert id metadata, decide (event = StateCommited))

/-- The `case <-time.After(TIMEOUT)` branch of `SessionManager`: the new store (the
function always returns). -/
def SessionManager.onTimeout (sessions : Sessions) (id : String) : Sessions :=
  let metadata := (sessions.lookup id).getD SessionMetadata.zero
  let metadata := { metadata with State := StateAborted }
  sessions.insert id metadata

/-! ## Channels -/

/-- A handler goroutine blocked in a send: the value it sends and the response it writes
once the send has gone through. -/
structure Sender where
  val : State
  resp : Response
deriving DecidableEq, Repr

/-- A Go channel of `State`: the buffered values (oldest first), the capacity, and the
queue of blocked senders (oldest first). -/
structure Chan where
  buf : List State
  cap : Nat
  sendq : List Sender
deriving DecidableEq, Repr

/-- Expression `make(chan State, 1)`. -/
def Chan.make (cap : Nat) : Chan := ⟨[], cap, []⟩

/-- Statement `ch <- event` by a handler that then writes `r`: with a free slot the value
is buffered and the handler goes on to write `r`; with no free slot the handler blocks. -/
def Chan.send (c : Chan) (event : State) (r : Response) : Chan × List Response :=
  if c.buf.length < c.cap then
    ({ c with buf := c.buf ++ [event] }, [r])
  else
    ({ c with sendq := c.sendq ++ [⟨event, r⟩] }, [])

/-- Expression `<-events`, when a value is available: the value received, the channel
afterwards, and the responses of the senders the receive unblocks. `none` when the
receive would block. -/
def Chan.recv (c : Chan) : Option (State × Chan × List Response) :=
  match c.buf, c.sendq with
  | [], [] => none
  | [], sd :: q => some (sd.val, { c with sendq := q }, [sd.resp])
  | event :: rest, [] => some (event, { c with buf := rest }, [])
  | event :: rest, sd :: q =>
    some (event, { c with buf := rest ++ [sd.val], sendq := q }, [sd.resp])

/-! ## The running system -/

/-- A `SessionManager` goroutine: its two arguments, the instant at which the timer of
the `select` it is waiting in fires, and whether it has not returned yet. -/
structure Worker where
  id : String
  events : Nat
  deadline : Nat
  running : Bool
deriving DecidableEq, Repr

/-- The process: the global `sessions`, the channels allocated so far (a channel
reference is a position in this list), the worker goroutines started so far, and the
clock. -/
structure System where
  sessions : Sessions
  chans : List Chan
  workers : List Worker
  clock : Nat

/-- The process when `main` starts serving: `sessions = make(map[string]SessionMetadata)`,
no channel, no worker. -/
def System.init : System := ⟨∅, [], [], 0⟩

/-- What can happen next: time passes, one of the four requests is served, or a worker
takes one of the two branches of its `select`. -/
inductive Action where
  | tick (d : Nat)
  | session (method sessionId : String)
  | sessions (method : String)
  | prepare (method id : String)
  | commit (method id : String)
  | workerEvent (w : Nat)
  | workerTimeout (w : Nat)
deriving DecidableEq, Repr

/-- Runs what a `/prepare` or `/commit` handler does against the channels. A send on the
nil channel, or on a reference that is not allocated, blocks for ever. -/
def System.perform (s : System) : Outcome → System × List Response
  | .reply r => (s, [r])
  | .send none _ _ => (s, [])
  | .send (some c) event r =>
    match s.chans[c]? with
    | none => (s, [])
    | some ch =>
      let (ch1, out) := ch.send event r
      ({ s with chans := s.chans.set c ch1 }, out)

/-- One step of the process: the state afterwards and the responses written during the
step. `none` when the step cannot happen in `s`: a worker that does not exist or has
returned, a receive on a channel with nothing to receive, a timer that has not fired,
and an identifier from `uuid.NewRandom` that is already in the store (identifiers are
taken to be collision-free).

A worker that stays in its loop evaluates `time.After(TIMEOUT)` again when it re-enters
the `select`, which starts a new timer at the current instant. -/
def System.step (s : System) : Action → Option (System × List Response)
  | .tick d => some ({ s with clock := s.clock + d }, [])
  | .session method sessionId =>
    if method = "POST" ∧ (s.sessions.lookup sessionId).isSome then none
    else
      match handleSession s.sessions method sessionId s.chans.length with
      | (sessions1, none, r) => some ({ s with sessions := sessions1 }, [r])
      | (sessions1, some g, r) =>
        some ({ sessions := sessions1,
                chans := s.chans ++ [Chan.make 1],
                workers := s.workers ++ [⟨g.id, g.events, s.clock + TIMEOUT, true⟩],
                clock := s.clock }, [r])
  | .sessions method => some (s, [handleSessions s.sessions method])
  | .prepare method id => some (s.perform (handlePrepare s.sessions method id))
  | .commit method id => some (s.perform (handleCommit s.sessions method id))
  | .workerEvent w =>
    match s.workers[w]? with
    | none => none
    | some wk =>
      if wk.running = false then none
      else
        match s.chans[wk.events]? with
        | none => none
        | some ch =>
          match ch.recv with
          | none => none
          | some (event, ch1, out) =>
            let (sessions1, returned) := SessionManager.onEvent s.sessions wk.id event
            let wk1 : Worker :=
              if returned then { wk with running := false }
              else { wk with deadline := s.clock + TIMEOUT }
            some ({ sessions := sessions1,
                    chans := s.chans.set wk.events ch1,
                    workers := s.workers.set w wk1,
                    clock := s.clock }, out)
  | .workerTimeout w =>
    match s.workers[w]? with
    | none => none
    | some wk =>
      if wk.running = false ∨ s.clock < wk.deadline then none
      else
        some ({ s with sessions := SessionManager.onTimeout s.sessions wk.id,
                       workers := s.workers.set w { wk with running := false } }, [])

/-- Runs a list of actions from `s`: the final state and all responses written, in
order. `none` when one of the steps cannot happen. -/
def System.run (s : System) : List Action → Option (System × List Response)
  | [] => some (s, [])
  | a :: as =>
    match s.step a with
    | none => none
    | some (s1, out) =>
      match s1.run as with
      | none => none
      | some (s2, out2) => some (s2, out ++ out2)

/-- The states of the process that some run from the start reaches. -/
inductive Reachable : System → Prop where
  | init : Reachable System.init
  | step {s s1 : System} {out : List Response} (a : Action) :
      Reachable s → s.step a = some (s1, out) → Reachable s1

/-- The stored phase of a session, if the store has an entry for it. -/
def System.phase (s : System) (id : String) : Option State :=
  (s.sessions.lookup id).map (fun m => m.State)

/-- The edges of the phase graph: `Initialized → PreparedToCommit → Committed`, and
`Aborted` from `Initialized` or `PreparedToCommit`. -/
def LegalEdge (p q : State) : Prop :=
  (p = StateInitialized ∧ q = StatePreparedToCommit) ∨
  (p = StatePreparedToCommit ∧ q = StateCommited) ∨
  (p = StateInitialized ∧ q = StateAborted) ∨
  (p = StatePreparedToCommit ∧ q = StateAborted)

instance (p q : State) : Decidable (LegalEdge p q) := by
  unfold LegalEdge; infer_instance

end ThreePC

/-! ## The invariant of the process -/

namespace ThreePC

/-- An event waiting in a channel is a request that passed its check: `PreparedToCommit`,
or `Commited` sent when the stored phase was `PreparedToCommit` (which it still is while
the worker runs). -/
def Pending (running : Bool) (st event : State) : Prop :=
  event = StatePreparedToCommit ∨
    (event = StateCommited ∧ (running = true → st = StatePreparedToCommit))

/-- The channel of a session: capacity one, at most one buffered event, senders blocked
only while the buffer is full, and every waiting event a `Pending` one. -/
def ChanOk (running : Bool) (st : State) (ch : Chan) : Prop :=
  ch.cap = 1 ∧ ch.buf.length ≤ 1 ∧ (ch.buf = [] → ch.sendq = []) ∧
  (∀ event ∈ ch.buf, Pending running st event) ∧
  (∀ sd ∈ ch.sendq, Pending running st sd.val)

/-- The worker at position `w`: it receives on channel `w`, its session has an entry that
holds this channel, it runs exactly while the stored phase is `Initialized` or
`PreparedToCommit`, and its channel is `ChanOk`. -/
def WorkerOk (sessions : Sessions) (chans : List Chan) (w : Nat) (wk : Worker) : Prop :=
  wk.events = w ∧ ∃ m ch, sessions.lookup wk.id = some m ∧ m.Reciever = some w ∧
    chans[w]? = some ch ∧
    (wk.running = true → m.State = StateInitialized ∨ m.State = StatePreparedToCommit) ∧
    (wk.running = false → m.State = StateAborted ∨ m.State = StateCommited) ∧
    ChanOk wk.running m.State ch

/-- The invariant: every worker is `WorkerOk`, every session has a worker, no two workers
serve the same session, and there are as many channels as workers. -/
structure Inv (s : System) : Prop where
  workerOk : ∀ w wk, s.workers[w]? = some wk → WorkerOk s.sessions s.chans w wk
  owned : ∀ id m, s.sessions.lookup id = some m → ∃ (w : Nat) (wk : Worker), s.workers[w]? = some wk ∧ wk.id = id
  unique : ∀ (w w1 : Nat) (wk wk1 : Worker), s.workers[w]? = some wk → s.workers[w1]? = some wk1 →
    wk.id = wk1.id → w = w1
  sameLength : s.chans.length = s.workers.length

end ThreePC

/-! ## Sample states and predicates on one session -/

namespace ThreePC

/-- A store with one session in each of the four phases, used to instantiate the
handler contracts. -/
def sampleSessions : Sessions :=
  ((((∅ : Sessions).insert "i" ⟨StateInitialized, some 0⟩).insert "p"
    ⟨StatePreparedToCommit, some 1⟩).insert "a" ⟨StateAborted, some 2⟩).insert "c"
    ⟨StateCommited, some 3⟩

/-- A process whose store is `sampleSessions`, with one empty channel per session. -/
def sampleSystem : System :=
  ⟨sampleSessions, [Chan.make 1, Chan.make 1, Chan.make 1, Chan.make 1],
    [⟨"i", 0, TIMEOUT, true⟩, ⟨"p", 1, TIMEOUT, true⟩, ⟨"a", 2, TIMEOUT, false⟩,
      ⟨"c", 3, TIMEOUT, false⟩], 0⟩

/-- The state the process is in after the given actions from its start (the start itself
when the actions cannot all happen). -/
def System.after (acts : List Action) : System :=
  match System.init.run acts with
  | some (s, _) => s
  | none => System.init

/-- A fresh session: its worker `w` is running, its stored phase is `Initialized`, and
its channel is empty. -/
def FreshSession (s : System) (id : String) (w : Nat) : Prop :=
  ∃ (wk : Worker) (ch : Chan), s.workers[w]? = some wk ∧ wk.id = id ∧ wk.running = true ∧
    s.phase id = some StateInitialized ∧ s.chans[w]? = some ch ∧ ch.buf = []

/-- The session `id` has the running worker `w`, the stored phase `p`, and a channel of
capacity one with the given buffer and blocked senders. -/
def Waiting (s : System) (id : String) (w : Nat) (p : State) (buf : List State)
    (sendq : List Sender) : Prop :=
  ∃ wk : Worker, s.workers[w]? = some wk ∧ wk.id = id ∧ wk.events = w ∧ wk.running = true ∧
    s.sessions.lookup id = some ⟨p, some w⟩ ∧ s.chans[w]? = some ⟨buf, 1, sendq⟩

/-- An action that is neither a `/prepare` or `/commit` request for the session `id` nor a
step of the worker `w`: time passing, a creation, `/sessions`, a request for another
session, a step of another worker. -/
def Foreign (id : String) (w : Nat) : Action → Prop
  | .prepare _ id1 => id1 ≠ id
  | .commit _ id1 => id1 ≠ id
  | .workerEvent w1 => w1 ≠ w
  | .workerTimeout w1 => w1 ≠ w
  | _ => True

instance (id : String) (w : Nat) : DecidablePred (Foreign id w) := by
  intro a
  cases a <;> unfold Foreign <;> infer_instance

end ThreePC

/-! ## Handler contracts -/

namespace ThreePC

/-- Running what a handler does leaves the store as it is. -/
theorem perform_sessions (s : System) (o : Outcome) : (s.perform o).1.sessions = s.sessions := by
  unfold System.perform
  split
  · rfl
  · rfl
  · split <;> rfl

/-- C5. The `/prepare` and `/commit` handlers never write a phase: whatever the method,
the id and the outcome, the step of either handler happens and the store afterwards is
the store before (same ids, same stored phases); and `/commit` on a session whose stored
phase is `Initialized` writes the invalid-transition error and leaves the whole process,
so also that phase, as it is. -/
theorem handlers_keep_store (s : System) (method id : String) :
    (s.step (.prepare method id)).map (fun r => r.1.sessions) = some s.sessions ∧
    (s.step (.commit method id)).map (fun r => r.1.sessions) = some s.sessions ∧
    (s.phase id = some StateInitialized →
      s.step (.commit "PUT" id) = some (s, [⟨400, .object
        [("error", "session cannot be commited.")]⟩]) ∧
      ∀ r, s.step (.commit "PUT" id) = some r → r.1.phase id = some StateInitialized) := by
  refine ⟨by simp [System.step, perform_sessions], by simp [System.step, perform_sessions], ?_⟩
  intro h
  obtain ⟨m, hm, hst⟩ : ∃ m, s.sessions.lookup id = some m ∧ m.State = StateInitialized := by
    simpa [System.phase] using h
  have hne : m.State ≠ StatePreparedToCommit := by rw [hst]; decide
  have hstep : s.step (.commit "PUT" id) = some (s, [⟨400, .object
      [("error", "session cannot be commited.")]⟩]) := by
    simp [System.step, System.perform, handleCommit, hm, hne, StatusBadRequest]
  refine ⟨hstep, fun r hr => ?_⟩
  rw [hstep] at hr
  cases hr
  exact h

/-- Instance of C5 on the sample process: `/commit` on the initialized session "i". -/
theorem handlers_keep_store_witness :
    sampleSystem.step (.commit "PUT" "i") = some (sampleSystem, [⟨400, .object
        [("error", "session cannot be commited.")]⟩]) :=
  ((handlers_keep_store sampleSystem "PUT" "i").2.2 (by decide)).1

/-- C6. The labels of `State.String`: "Initialized", "prepared-to-commit", "aborted" and
"commited" for the four constants, "unknown" for every other value, and the four labels
are pairwise distinct. -/
theorem State_String_labels :
    StateInitialized.String = "Initialized" ∧
    StatePreparedToCommit.String = "prepared-to-commit" ∧
    StateAborted.String = "aborted" ∧
    StateCommited.String = "commited" ∧
    (∀ s : State, s ≠ StateInitialized → s ≠ StatePreparedToCommit → s ≠ StateAborted →
      s ≠ StateCommited → s.String = "unknown") ∧
    [StateInitialized.String, StatePreparedToCommit.String, StateAborted.String,
      StateCommited.String].Nodup := by
  refine ⟨by decide, by decide, by decide, by decide, ?_, by decide⟩
  intro s h1 h2 h3 h4
  simp [State.String, h1, h2, h3, h4]

/-- Instance of C6 at the value 7, which is none of the four constants. -/
theorem State_String_labels_witness : (⟨7⟩ : State).String = "unknown" :=
  State_String_labels.2.2.2.2.1 ⟨7⟩ (by decide) (by decide) (by decide) (by decide)

end ThreePC

/-! ## The invariant is kept by every step -/

namespace ThreePC

theorem pending_cases {b : Bool} {st event : State} (h : Pending b st event) :
    event = StatePreparedToCommit ∨ event = StateCommited := by
  rcases h with h | ⟨h, _⟩
  · exact Or.inl h
  · exact Or.inr h

/-- A send keeps `ChanOk` when the event sent is a `Pending` one. -/
theorem chanOk_send {b : Bool} {st event : State} {ch : Chan} (r : Response)
    (h : ChanOk b st ch) (hp : Pending b st event) : ChanOk b st (ch.send event r).1 := by
  obtain ⟨hcap, hlen, hq, hbuf, hsq⟩ := h
  unfold Chan.send
  by_cases hfree : ch.buf.length < ch.cap
  · have hnil : ch.buf = [] := by
      rw [hcap] at hfree
      exact List.length_eq_zero.mp (by omega)
    simp only [hfree, if_true]
    refine ⟨hcap, by simp [hnil], by simp, ?_, hsq⟩
    intro e he
    simp only [hnil, List.nil_append, List.mem_singleton] at he
    rw [he]; exact hp
  · simp only [hfree, if_false]
    have hne : ch.buf ≠ [] := by
      intro hnil
      rw [hnil, hcap] at hfree
      simp at hfree
    refine ⟨hcap, hlen, fun hnil => absurd hnil hne, hbuf, ?_⟩
    intro sd hsd
    simp only [List.mem_append, List.mem_singleton] at hsd
    rcases hsd with hsd | hsd
    · exact hsq sd hsd
    · rw [hsd]; exact hp

/-- A receive on a `ChanOk` channel yields a `Pending` event and leaves a channel that is
`ChanOk` for any worker status and phase under which the pending events stay pending. -/
theorem chanOk_recv {b : Bool} {st event : State} {ch ch1 : Chan} {out : List Response}
    (h : ChanOk b st ch) (hr : ch.recv = some (event, ch1, out)) :
    Pending b st event ∧
    ∀ (b1 : Bool) (st1 : State), (∀ e, Pending b st e → Pending b1 st1 e) →
      ChanOk b1 st1 ch1 := by
  obtain ⟨hcap, hlen, hq, hbuf, hsq⟩ := h
  unfold Chan.recv at hr
  cases hb : ch.buf with
  | nil =>
    rw [hb, hq hb] at hr
    simp at hr
  | cons e rest =>
    have hrest : rest = [] := by
      rw [hb] at hlen
      simp only [List.length_cons] at hlen
      exact List.length_eq_zero.mp (by omega)
    subst hrest
    have he : Pending b st e := hbuf e (by rw [hb]; simp)
    cases hs : ch.sendq with
    | nil =>
      rw [hb, hs] at hr
      simp only [Option.some.injEq, Prod.mk.injEq] at hr
      obtain ⟨h1, h2, _⟩ := hr
      subst h1
      subst h2
      refine ⟨he, fun b1 st1 _ => ⟨hcap, by simp, fun _ => rfl, by simp, ?_⟩⟩
      intro sd hsd
      exact absurd hsd (List.not_mem_nil sd)
    | cons sd q =>
      rw [hb, hs] at hr
      simp only [Option.some.injEq, Prod.mk.injEq] at hr
      obtain ⟨h1, h2, _⟩ := hr
      subst h1
      subst h2
      refine ⟨he, fun b1 st1 hmono => ⟨hcap, by simp, by simp, ?_, ?_⟩⟩
      · intro e1 he1
        simp only [List.nil_append, List.mem_singleton] at he1
        rw [he1]
        exact hmono _ (hsq sd (by rw [hs]; simp))
      · intro sd1 hsd1
        exact hmono _ (hsq sd1 (by rw [hs]; exact List.mem_cons_of_mem _ hsd1))

/-- A change of the process that touches only worker `w`, its session and its channel,
and leaves that worker `WorkerOk`, keeps the invariant. -/
theorem inv_local {s s1 : System} {w : Nat} {wk wk1 : Worker} (h : Inv s)
    (hw : s.workers[w]? = some wk)
    (hs : ∀ id, id ≠ wk.id → s1.sessions.lookup id = s.sessions.lookup id)
    (hc : ∀ w1, w1 ≠ w → s1.chans[w1]? = s.chans[w1]?)
    (hws : ∀ w1, w1 ≠ w → s1.workers[w1]? = s.workers[w1]?)
    (hl : s1.chans.length = s1.workers.length)
    (hw1 : s1.workers[w]? = some wk1) (hid : wk1.id = wk.id)
    (hok : WorkerOk s1.sessions s1.chans w wk1) : Inv s1 := by
  constructor
  · intro w2 wk2 h2
    by_cases hww : w2 = w
    · subst hww
      rw [hw1] at h2
      cases h2
      exact hok
    · rw [hws w2 hww] at h2
      obtain ⟨hev, m, ch, hm, hrc, hch, hrun, hstop, hco⟩ := h.workerOk w2 wk2 h2
      have hne : wk2.id ≠ wk.id := fun he => hww (h.unique w2 w wk2 wk h2 hw he)
      exact ⟨hev, m, ch, by rw [hs _ hne]; exact hm, hrc, by rw [hc w2 hww]; exact hch,
        hrun, hstop, hco⟩
  · intro id m hm
    by_cases hi : id = wk.id
    · exact ⟨w, wk1, hw1, by rw [hid, hi]⟩
    · rw [hs id hi] at hm
      obtain ⟨w0, wk0, h0, hid0⟩ := h.owned id m hm
      have hne : w0 ≠ w := by
        intro he
        subst he
        rw [hw] at h0
        cases h0
        exact hi hid0.symm
      exact ⟨w0, wk0, by rw [hws w0 hne]; exact h0, hid0⟩
  · intro a b wa wb ha hb hab
    by_cases haw : a = w
    · by_cases hbw : b = w
      · rw [haw, hbw]
      · subst haw
        rw [hw1] at ha
        cases ha
        rw [hws b hbw] at hb
        exact h.unique a b wk wb hw hb (by rw [← hid]; exact hab)
    · by_cases hbw : b = w
      · subst hbw
        rw [hw1] at hb
        cases hb
        rw [hws a haw] at ha
        exact h.unique a b wa wk ha hw (by rw [← hid]; exact hab)
      · rw [hws a haw] at ha
        rw [hws b hbw] at hb
        exact h.unique a b wa wb ha hb hab
  · exact hl

/-- Under the invariant the entry of a session points to the channel of its one worker. -/
theorem owner_of {s : System} (h : Inv s) {id : String} {m : SessionMetadata}
    (hm : s.sessions.lookup id = some m) :
    ∃ (w : Nat) (wk : Worker) (ch : Chan), s.workers[w]? = some wk ∧ wk.id = id ∧
      m.Reciever = some w ∧ s.chans[w]? = some ch ∧
      (wk.running = true → m.State = StateInitialized ∨ m.State = StatePreparedToCommit) ∧
      (wk.running = false → m.State = StateAborted ∨ m.State = StateCommited) ∧
      ChanOk wk.running m.State ch := by
  obtain ⟨w, wk, hw, hid⟩ := h.owned id m hm
  obtain ⟨_, m1, ch, hm1, hrc, hch, hrun, hstop, hco⟩ := h.workerOk w wk hw
  rw [hid, hm] at hm1
  cases hm1
  exact ⟨w, wk, ch, hw, hid, hrc, hch, hrun, hstop, hco⟩

/-- The invariant does not depend on the clock. -/
theorem inv_of_eq {s s1 : System} (h : Inv s) (h1 : s1.sessions = s.sessions)
    (h2 : s1.chans = s.chans) (h3 : s1.workers = s.workers) : Inv s1 := by
  constructor
  · rw [h1, h2, h3]; exact h.workerOk
  · rw [h1, h3]; exact h.owned
  · rw [h3]; exact h.unique
  · rw [h2, h3]; exact h.sameLength

/-- The send of a handler that passed its check keeps the invariant. -/
theorem inv_perform_send {s : System} (h : Inv s) {id : String} {m : SessionMetadata}
    (hm : s.sessions.lookup id = some m) {event : State} (r : Response)
    (hp : ∀ b, Pending b m.State event) :
    Inv (s.perform (.send m.Reciever event r)).1 := by
  obtain ⟨w, wk, ch, hw, hid, hrc, hch, hrun, hstop, hco⟩ := owner_of h hm
  have hev : wk.events = w := (h.workerOk w wk hw).1
  rw [hrc]
  simp only [System.perform, hch]
  refine inv_local h hw (fun _ _ => rfl) (fun w1 hne => ?_) (fun _ _ => rfl) ?_ hw rfl ?_
  · exact List.getElem?_set_ne (Ne.symm hne)
  · simp only [List.length_set]; exact h.sameLength
  · refine ⟨hev, m, (ch.send event r).1, by rw [hid]; exact hm, hrc, ?_, hrun, hstop,
      chanOk_send r hco (hp _)⟩
    have hlt : w < s.chans.length := (List.getElem?_eq_some.mp hch).1
    simp [List.getElem?_set_self hlt]

/-- Serving `/prepare` keeps the invariant. -/
theorem inv_prepare {s : System} (h : Inv s) (method id : String) :
    Inv (s.perform (handlePrepare s.sessions method id)).1 := by
  unfold handlePrepare
  split
  · exact h
  · split
    · exact h
    · rename_i m hm
      split
      · exact h
      · exact inv_perform_send h hm _ (fun _ => Or.inl rfl)

/-- Serving `/commit` keeps the invariant. -/
theorem inv_commit {s : System} (h : Inv s) (method id : String) :
    Inv (s.perform (handleCommit s.sessions method id)).1 := by
  unfold handleCommit
  split
  · exact h
  · split
    · exact h
    · rename_i m hm
      split
      · exact h
      · rename_i hst
        have hst1 : m.State = StatePreparedToCommit := not_not.mp hst
        exact inv_perform_send h hm _ (fun _ => Or.inr ⟨rfl, fun _ => hst1⟩)

/-- Creating a session under an identifier that is not in the store keeps the invariant. -/
theorem inv_create {s : System} (h : Inv s) (sessionId : String) (d : Nat)
    (hfresh : s.sessions.lookup sessionId = none) :
    Inv ⟨s.sessions.insert sessionId ⟨StateInitialized, some s.chans.length⟩,
      s.chans ++ [Chan.make 1], s.workers ++ [⟨sessionId, s.chans.length, d, true⟩],
      s.clock⟩ := by
  have hlen := h.sameLength
  have hold : ∀ (w : Nat) (wk : Worker), s.workers[w]? = some wk → wk.id ≠ sessionId := by
    intro w wk hw he
    obtain ⟨_, m, _, hm, _⟩ := h.workerOk w wk hw
    rw [he, hfresh] at hm
    cases hm
  have hsplit : ∀ (w : Nat) (wk : Worker),
      (s.workers ++ [⟨sessionId, s.chans.length, d, true⟩])[w]? = some wk →
      s.workers[w]? = some wk ∨
        (w = s.chans.length ∧ wk = ⟨sessionId, s.chans.length, d, true⟩) := by
    intro w wk hw
    rw [List.getElem?_append] at hw
    split at hw
    · exact Or.inl hw
    · rename_i hge
      have hlt : w - s.workers.length < 1 := by
        have := (List.getElem?_eq_some.mp hw).1
        simpa using this
      have hw0 : w = s.workers.length := by omega
      subst hw0
      simp only [Nat.sub_self, List.getElem?_cons_zero, Option.some.injEq] at hw
      exact Or.inr ⟨hlen.symm, hw.symm⟩
  constructor
  · intro w wk hw
    rcases hsplit w wk hw with hw0 | ⟨hw0, hwk⟩
    · obtain ⟨hev, m, ch, hm, hrc, hch, hrun, hstop, hco⟩ := h.workerOk w wk hw0
      refine ⟨hev, m, ch, ?_, hrc, ?_, hrun, hstop, hco⟩
      · show AList.lookup wk.id (AList.insert sessionId _ s.sessions) = some m
        rw [AList.lookup_insert_ne (hold w wk hw0)]
        exact hm
      · show (s.chans ++ [Chan.make 1])[w]? = some ch
        rw [List.getElem?_append_left (List.getElem?_eq_some.mp hch).1]
        exact hch
    · subst hw0
      subst hwk
      refine ⟨rfl, ⟨StateInitialized, some s.chans.length⟩, Chan.make 1, ?_, rfl, ?_,
        fun _ => Or.inl rfl, fun hf => Bool.noConfusion hf, ?_⟩
      · exact AList.lookup_insert _
      · exact List.getElem?_concat_length _ _
      · exact ⟨rfl, by simp [Chan.make], fun _ => rfl, by simp [Chan.make],
          by simp [Chan.make]⟩
  · intro id m hm
    by_cases hi : id = sessionId
    · refine ⟨s.chans.length, ⟨sessionId, s.chans.length, d, true⟩, ?_, hi.symm⟩
      show (s.workers ++ [_])[s.chans.length]? = some _
      rw [hlen]
      exact List.getElem?_concat_length _ _
    · have hm0 : s.sessions.lookup id = some m := by
        rw [← AList.lookup_insert_ne hi]
        exact hm
      obtain ⟨w, wk, hw, hid⟩ := h.owned id m hm0
      refine ⟨w, wk, ?_, hid⟩
      show (s.workers ++ [_])[w]? = some wk
      rw [List.getElem?_append_left (List.getElem?_eq_some.mp hw).1]
      exact hw
  · intro a b wa wb ha hb hab
    rcases hsplit a wa ha with ha0 | ⟨ha0, hwa⟩
    · rcases hsplit b wb hb with hb0 | ⟨hb0, hwb⟩
      · exact h.unique a b wa wb ha0 hb0 hab
      · exact absurd (by rw [hab, hwb]) (hold a wa ha0)
    · rcases hsplit b wb hb with hb0 | ⟨hb0, hwb⟩
      · exact absurd (by rw [← hab, hwa]) (hold b wb hb0)
      · rw [ha0, hb0]
  · simp [hlen]

/-- The event branch of a worker keeps the invariant. -/
theorem inv_workerEvent {s : System} (h : Inv s) {w : Nat} {wk : Worker} {ch ch1 : Chan}
    {event : State} {out : List Response} (hw : s.workers[w]? = some wk)
    (hch : s.chans[wk.events]? = some ch)
    (hr : ch.recv = some (event, ch1, out)) (wk1 : Worker) (hid : wk1.id = wk.id)
    (hev1 : wk1.events = wk.events)
    (hrun1 : wk1.running = !decide (event = StateCommited)) (clock : Nat) :
    Inv ⟨(SessionManager.onEvent s.sessions wk.id event).1, s.chans.set wk.events ch1,
      s.workers.set w wk1, clock⟩ := by
  obtain ⟨hev, m, ch0, hm, hrc, hch0, hrun0, _, hco⟩ := h.workerOk w wk hw
  rw [hev] at hch
  rw [hch] at hch0
  cases hch0
  rw [hev]
  have hwlt : w < s.workers.length := (List.getElem?_eq_some.mp hw).1
  have hclt : w < s.chans.length := (List.getElem?_eq_some.mp hch).1
  obtain ⟨hpend, hco1⟩ := chanOk_recv hco hr
  have hcases := pending_cases hpend
  refine inv_local h hw (fun id hne => ?_) (fun w1 hne => ?_) (fun w1 hne => ?_) ?_
    (List.getElem?_set_self hwlt) hid ?_
  · exact AList.lookup_insert_ne hne
  · exact List.getElem?_set_ne (Ne.symm hne)
  · exact List.getElem?_set_ne (Ne.symm hne)
  · simp only [List.length_set]; exact h.sameLength
  · refine ⟨by rw [hev1, hev], ⟨event, m.Reciever⟩, ch1, ?_, hrc,
      List.getElem?_set_self hclt, ?_, ?_, ?_⟩
    · show AList.lookup wk1.id (AList.insert wk.id _ s.sessions) = some _
      rw [hid, AList.lookup_insert]
      simp [hm]
    · intro hb
      rcases hcases with hc | hc
      · exact Or.inr hc
      · rw [hrun1, hc] at hb
        simp at hb
    · intro hstop
      rcases hcases with hc | hc
      · rw [hrun1, hc] at hstop
        simp [StatePreparedToCommit, StateCommited] at hstop
      · exact Or.inr hc
    · apply hco1
      intro e he
      rcases pending_cases he with he1 | he1
      · exact Or.inl he1
      · refine Or.inr ⟨he1, fun hb => ?_⟩
        rcases hcases with hc | hc
        · exact hc
        · rw [hrun1, hc] at hb
          simp at hb

/-- The timeout branch of a worker keeps the invariant. -/
theorem inv_workerTimeout {s : System} (h : Inv s) {w : Nat} {wk : Worker}
    (hw : s.workers[w]? = some wk) :
    Inv { s with sessions := SessionManager.onTimeout s.sessions wk.id,
                 workers := s.workers.set w { wk with running := false } } := by
  obtain ⟨hev, m, ch, hm, hrc, hch, _, _, hco⟩ := h.workerOk w wk hw
  have hwlt : w < s.workers.length := (List.getElem?_eq_some.mp hw).1
  refine inv_local h hw (fun id hne => ?_) (fun _ _ => rfl) (fun w1 hne => ?_) ?_
    (List.getElem?_set_self hwlt) rfl ?_
  · exact AList.lookup_insert_ne hne
  · exact List.getElem?_set_ne (Ne.symm hne)
  · simp only [List.length_set]; exact h.sameLength
  · refine ⟨hev, ⟨StateAborted, m.Reciever⟩, ch, ?_, hrc, hch, fun hf => Bool.noConfusion hf,
      fun _ => Or.inl rfl, ?_⟩
    · show AList.lookup wk.id (AList.insert wk.id _ s.sessions) = some _
      rw [AList.lookup_insert]
      simp [hm]
    · obtain ⟨h1, h2, h3, h4, h5⟩ := hco
      refine ⟨h1, h2, h3, fun e he => ?_, fun sd hsd => ?_⟩
      · rcases pending_cases (h4 e he) with hc | hc
        · exact Or.inl hc
        · exact Or.inr ⟨hc, fun hf => Bool.noConfusion hf⟩
      · rcases pending_cases (h5 sd hsd) with hc | hc
        · exact Or.inl hc
        · exact Or.inr ⟨hc, fun hf => Bool.noConfusion hf⟩

/-- Every step keeps the invariant. -/
theorem inv_step {s s1 : System} {out : List Response} (h : Inv s) (a : Action)
    (hstep : s.step a = some (s1, out)) : Inv s1 := by
  cases a with
  | tick d =>
    simp only [System.step, Option.some.injEq, Prod.mk.injEq] at hstep
    obtain ⟨rfl, _⟩ := hstep
    exact inv_of_eq h rfl rfl rfl
  | session method sessionId =>
    simp only [System.step] at hstep
    split at hstep
    · cases hstep
    · rename_i hguard
      by_cases hmeth : method = "POST"
      · have hfresh : s.sessions.lookup sessionId = none := by
          cases hl : s.sessions.lookup sessionId with
          | none => rfl
          | some m => exact absurd ⟨hmeth, by simp [hl]⟩ hguard
        simp only [handleSession, hmeth, ne_eq, not_true_eq_false, if_false,
          Option.some.injEq, Prod.mk.injEq] at hstep
        obtain ⟨rfl, _⟩ := hstep
        exact inv_create h sessionId _ hfresh
      · simp only [handleSession, hmeth, ne_eq, not_false_eq_true, if_true,
          Option.some.injEq, Prod.mk.injEq] at hstep
        obtain ⟨rfl, _⟩ := hstep
        exact inv_of_eq h rfl rfl rfl
  | sessions method =>
    simp only [System.step, Option.some.injEq, Prod.mk.injEq] at hstep
    obtain ⟨rfl, _⟩ := hstep
    exact h
  | prepare method id =>
    simp only [System.step, Option.some.injEq] at hstep
    have := inv_prepare h method id
    rw [hstep] at this
    exact this
  | commit method id =>
    simp only [System.step, Option.some.injEq] at hstep
    have := inv_commit h method id
    rw [hstep] at this
    exact this
  | workerEvent w =>
    simp only [System.step] at hstep
    split at hstep
    · cases hstep
    · rename_i wk hw
      split at hstep
      · cases hstep
      · rename_i hlive
        split at hstep
        · cases hstep
        · rename_i ch hch
          split at hstep
          · cases hstep
          · rename_i event ch1 out1 hr
            simp only [Option.some.injEq, Prod.mk.injEq] at hstep
            obtain ⟨rfl, _⟩ := hstep
            refine inv_workerEvent h hw hch hr _ ?_ ?_ ?_ _
            · simp only [SessionManager.onEvent]; split <;> rfl
            · simp only [SessionManager.onEvent]; split <;> rfl
            · simp only [SessionManager.onEvent]
              split
              · rename_i hc; simp [hc]
              · rename_i hc; simp at hc; simp [hc]; simpa using hlive
  | workerTimeout w =>
    simp only [System.step] at hstep
    split at hstep
    · cases hstep
    · rename_i wk hw
      split at hstep
      · cases hstep
      · simp only [Option.some.injEq, Prod.mk.injEq] at hstep
        obtain ⟨rfl, _⟩ := hstep
        exact inv_workerTimeout h hw

/-- The process starts in a state that satisfies the invariant. -/
theorem inv_init : Inv System.init := by
  constructor
  · intro w wk hw
    simp [System.init] at hw
  · intro id m hm
    simp [System.init] at hm
  · intro a b wa wb ha
    simp [System.init] at ha
  · rfl

/-- Every reachable state satisfies the invariant. -/
theorem inv_of_reachable {s : System} (h : Reachable s) : Inv s := by
  induction h with
  | init => exact inv_init
  | step a _ hstep ih => exact inv_step ih a hstep

end ThreePC

/-! ## The two request handlers -/

namespace ThreePC

/-- C1, as the claim states it, fails. In the reachable state after the creation of "s"
and one `/prepare`, the stored phase of "s" is `Initialized`, and a `/prepare` for "s"
passes its check but writes no response: the one slot of the channel is taken, the
handler blocks in the send. When the worker then times out, the worker has returned,
neither of its steps can happen any more, and the handler is still blocked in the
channel with its response unwritten. -/
theorem prepare_never_answered :
    (System.init.run [.session "POST" "s", .prepare "PUT" "s"]).isSome = true ∧
    (System.after [.session "POST" "s", .prepare "PUT" "s"]).phase "s" = some StateInitialized ∧
    ((System.after [.session "POST" "s", .prepare "PUT" "s"]).step
      (.prepare "PUT" "s")).map (fun r => r.2) = some [] ∧
    (System.init.run [.session "POST" "s", .prepare "PUT" "s", .prepare "PUT" "s",
      .tick TIMEOUT, .workerTimeout 0]).isSome = true ∧
    (System.after [.session "POST" "s", .prepare "PUT" "s", .prepare "PUT" "s",
      .tick TIMEOUT, .workerTimeout 0]).chans =
      [⟨[StatePreparedToCommit], 1, [⟨StatePreparedToCommit,
        ⟨200, .object [("sessionId", "s"), ("status", "prepared-to-commit")]⟩⟩]⟩] ∧
    (System.after [.session "POST" "s", .prepare "PUT" "s", .prepare "PUT" "s",
      .tick TIMEOUT, .workerTimeout 0]).workers.map (fun wk => wk.running) = [false] ∧
    (System.after [.session "POST" "s", .prepare "PUT" "s", .prepare "PUT" "s",
      .tick TIMEOUT, .workerTimeout 0]).step (.workerEvent 0) = none ∧
    (System.after [.session "POST" "s", .prepare "PUT" "s", .prepare "PUT" "s",
      .tick TIMEOUT, .workerTimeout 0]).step (.workerTimeout 0) = none := by
  refine ⟨by decide, by decide, by decide, by decide, by decide, by decide, by rfl, by rfl⟩

/-- C1, amended. The `/prepare` handler on a PUT request: an id with no entry gets the
not-found error (400, "no session id exists with the provided ID") and the process is
unchanged, so nothing is sent; an entry whose stored phase is not `Initialized` gets
the invalid-transition error (400, "session cannot be prepared.") and the process is
unchanged; an entry whose stored phase is `Initialized` makes the handler send exactly
one event, `PreparedToCommit`, on the channel of that entry: when the channel has a free
slot the event is appended to its buffer, nothing else changes, and the handler writes
the response with `sessionId` the id and `status` "prepared-to-commit"; when the channel
is full the handler blocks in the send, its event and its unwritten response are queued
on the channel, nothing else changes, and the step writes no response. In a reachable
state the channel of an entry exists and has capacity 1. -/
theorem handlePrepare_contract (s : System) (id : String) :
    (s.sessions.lookup id = none →
      s.step (.prepare "PUT" id) = some (s, [⟨400, .object
        [("error", "no session id exists with the provided ID")]⟩])) ∧
    (∀ m, s.sessions.lookup id = some m → m.State ≠ StateInitialized →
      s.step (.prepare "PUT" id) = some (s, [⟨400, .object
        [("error", "session cannot be prepared.")]⟩])) ∧
    (∀ (m : SessionMetadata) (c : Nat) (ch : Chan), s.sessions.lookup id = some m →
      m.State = StateInitialized → m.Reciever = some c → s.chans[c]? = some ch →
      handlePrepare s.sessions "PUT" id = .send (some c) StatePreparedToCommit
        ⟨200, .object [("sessionId", id), ("status", "prepared-to-commit")]⟩ ∧
      (ch.buf.length < ch.cap → s.step (.prepare "PUT" id) =
        some ({ s with
            chans := (s.chans.set c { ch with buf := ch.buf ++ [StatePreparedToCommit] }) },
          [⟨200, .object [("sessionId", id), ("status", "prepared-to-commit")]⟩])) ∧
      (ch.cap ≤ ch.buf.length → s.step (.prepare "PUT" id) =
        some ({ s with chans := s.chans.set c { ch with sendq := ch.sendq ++
            [⟨StatePreparedToCommit,
              ⟨200, .object [("sessionId", id), ("status", "prepared-to-commit")]⟩⟩] } },
          []))) ∧
    (Reachable s → ∀ m, s.sessions.lookup id = some m →
      ∃ (c : Nat) (ch : Chan), m.Reciever = some c ∧ s.chans[c]? = some ch ∧ ch.cap = 1 ∧
        ch.buf.length ≤ 1) := by
  refine ⟨fun h => ?_, fun m h hne => ?_, fun m c ch h he hrc hch => ?_, fun hreach m h => ?_⟩
  · simp [System.step, System.perform, handlePrepare, h, StatusBadRequest]
  · simp [System.step, System.perform, handlePrepare, h, hne, StatusBadRequest]
  · have hs : StatePreparedToCommit.String = "prepared-to-commit" := by decide
    have hh : handlePrepare s.sessions "PUT" id = .send (some c) StatePreparedToCommit
        ⟨200, .object [("sessionId", id), ("status", "prepared-to-commit")]⟩ := by
      simp [handlePrepare, h, he, hrc, StatusOK, hs]
    refine ⟨hh, fun hfree => ?_, fun hfull => ?_⟩
    · simp [System.step, System.perform, hh, hch, Chan.send, hfree]
    · simp [System.step, System.perform, hh, hch, Chan.send, Nat.not_lt.mpr hfull]
  · obtain ⟨c, _, ch, _, _, hrc, hch, _, _, hcap, hlen, _⟩ :=
      owner_of (inv_of_reachable hreach) h
    exact ⟨c, ch, hrc, hch, hcap, hlen⟩

/-- Instance of C1 amended: an unknown id, a session in another phase and a session in
phase `Initialized` with an empty channel on the sample process, and the session "s"
with a full channel after the creation of "s" and one `/prepare`. -/
theorem handlePrepare_contract_witness :
    sampleSystem.step (.prepare "PUT" "zz") = some (sampleSystem, [⟨400, .object
        [("error", "no session id exists with the provided ID")]⟩]) ∧
    sampleSystem.step (.prepare "PUT" "c") = some (sampleSystem, [⟨400, .object
        [("error", "session cannot be prepared.")]⟩]) ∧
    sampleSystem.step (.prepare "PUT" "i") =
      some ({ sampleSystem with
          chans := (sampleSystem.chans.set 0 ⟨[StatePreparedToCommit], 1, []⟩) },
        [⟨200, .object [("sessionId", "i"), ("status", "prepared-to-commit")]⟩]) ∧
    (System.after [.session "POST" "s", .prepare "PUT" "s"]).step (.prepare "PUT" "s") =
      some ({ (System.after [.session "POST" "s", .prepare "PUT" "s"]) with
          chans := ((System.after [.session "POST" "s", .prepare "PUT" "s"]).chans.set 0
            ⟨[StatePreparedToCommit], 1, [⟨StatePreparedToCommit,
              ⟨200, .object [("sessionId", "s"), ("status", "prepared-to-commit")]⟩⟩]⟩) },
        []) :=
  ⟨(handlePrepare_contract sampleSystem "zz").1 (by decide),
   (handlePrepare_contract sampleSystem "c").2.1 ⟨StateCommited, some 3⟩ (by decide) (by decide),
   ((handlePrepare_contract sampleSystem "i").2.2.1 ⟨StateInitialized, some 0⟩ 0 (Chan.make 1)
      (by decide) rfl rfl (by decide)).2.1 (by decide),
   ((handlePrepare_contract (System.after [.session "POST" "s", .prepare "PUT" "s"]) "s").2.2.1
      ⟨StateInitialized, some 0⟩ 0 ⟨[StatePreparedToCommit], 1, []⟩ (by decide) rfl rfl (by decide)).2.2
      (by decide)⟩

/-- C2, as the claim states it, fails. In the reachable state after the creation of "s",
`/prepare`, the event step of the worker and one `/commit`, the stored phase of "s" is
`PreparedToCommit`, and a `/commit` for "s" passes its check but writes no response: the
one slot of the channel is taken, the handler blocks in the send. When the worker then times out, the worker has returned,
neither of its steps can happen any more, and the handler is still blocked in the
channel with its response unwritten. -/
theorem commit_never_answered :
    (System.init.run [.session "POST" "s", .prepare "PUT" "s", .workerEvent 0,
      .commit "PUT" "s"]).isSome = true ∧
    (System.after [.session "POST" "s", .prepare "PUT" "s", .workerEvent 0,
      .commit "PUT" "s"]).phase "s" = some StatePreparedToCommit ∧
    ((System.after [.session "POST" "s", .prepare "PUT" "s", .workerEvent 0,
      .commit "PUT" "s"]).step (.commit "PUT" "s")).map (fun r => r.2) = some [] ∧
    (System.init.run [.session "POST" "s", .prepare "PUT" "s", .workerEvent 0,
      .commit "PUT" "s", .commit "PUT" "s", .tick TIMEOUT, .workerTimeout 0]).isSome = true ∧
    (System.after [.session "POST" "s", .prepare "PUT" "s", .workerEvent 0,
      .commit "PUT" "s", .commit "PUT" "s", .tick TIMEOUT, .workerTimeout 0]).chans =
      [⟨[StateCommited], 1, [⟨StateCommited,
        ⟨200, .object [("sessionId", "s"), ("status", "commited")]⟩⟩]⟩] ∧
    (System.after [.session "POST" "s", .prepare "PUT" "s", .workerEvent 0,
      .commit "PUT" "s", .commit "PUT" "s", .tick TIMEOUT, .workerTimeout 0]).workers.map (fun wk => wk.running) = [false] ∧
    (System.after [.session "POST" "s", .prepare "PUT" "s", .workerEvent 0,
      .commit "PUT" "s", .commit "PUT" "s", .tick TIMEOUT, .workerTimeout 0]).step (.workerEvent 0) = none ∧
    (System.after [.session "POST" "s", .prepare "PUT" "s", .workerEvent 0,
      .commit "PUT" "s", .commit "PUT" "s", .tick TIMEOUT, .workerTimeout 0]).step (.workerTimeout 0) = none := by
  refine ⟨by decide, by decide, by decide, by decide, by decide, by decide, by rfl, by rfl⟩

/-- C2, amended. The `/commit` handler on a PUT request: an id with no entry gets the
not-found error (400, "no session id exists with the provided ID") and the process is
unchanged, so nothing is sent; an entry whose stored phase is not `PreparedToCommit` gets
the invalid-transition error (400, "session cannot be commited.") and the process is
unchanged; an entry whose stored phase is `PreparedToCommit` makes the handler send exactly
one event, `Commited`, on the channel of that entry: when the channel has a free
slot the event is appended to its buffer, nothing else changes, and the handler writes
the response with `sessionId` the id and `status` "commited"; when the channel
is full the handler blocks in the send, its event and its unwritten response are queued
on the channel, nothing else changes, and the step writes no response. In a reachable
state the channel of an entry exists and has capacity 1. -/
theorem handleCommit_contract (s : System) (id : String) :
    (s.sessions.lookup id = none →
      s.step (.commit "PUT" id) = some (s, [⟨400, .object
        [("error", "no session id exists with the provided ID")]⟩])) ∧
    (∀ m, s.sessions.lookup id = some m → m.State ≠ StatePreparedToCommit →
      s.step (.commit "PUT" id) = some (s, [⟨400, .object
        [("error", "session cannot be commited.")]⟩])) ∧
    (∀ (m : SessionMetadata) (c : Nat) (ch : Chan), s.sessions.lookup id = some m →
      m.State = StatePreparedToCommit → m.Reciever = some c → s.chans[c]? = some ch →
      handleCommit s.sessions "PUT" id = .send (some c) StateCommited
        ⟨200, .object [("sessionId", id), ("status", "commited")]⟩ ∧
      (ch.buf.length < ch.cap → s.step (.commit "PUT" id) =
        some ({ s with
            chans := (s.chans.set c { ch with buf := ch.buf ++ [StateCommited] }) },
          [⟨200, .object [("sessionId", id), ("status", "commited")]⟩])) ∧
      (ch.cap ≤ ch.buf.length → s.step (.commit "PUT" id) =
        some ({ s with chans := s.chans.set c { ch with sendq := ch.sendq ++
            [⟨StateCommited,
              ⟨200, .object [("sessionId", id), ("status", "commited")]⟩⟩] } },
          []))) ∧
    (Reachable s → ∀ m, s.sessions.lookup id = some m →
      ∃ (c : Nat) (ch : Chan), m.Reciever = some c ∧ s.chans[c]? = some ch ∧ ch.cap = 1 ∧
        ch.buf.length ≤ 1) := by
  refine ⟨fun h => ?_, fun m h hne => ?_, fun m c ch h he hrc hch => ?_, fun hreach m h => ?_⟩
  · simp [System.step, System.perform, handleCommit, h, StatusBadRequest]
  · simp [System.step, System.perform, handleCommit, h, hne, StatusBadRequest]
  · have hs : StateCommited.String = "commited" := by decide
    have hh : handleCommit s.sessions "PUT" id = .send (some c) StateCommited
        ⟨200, .object [("sessionId", id), ("status", "commited")]⟩ := by
      simp [handleCommit, h, he, hrc, StatusOK, hs]
    refine ⟨hh, fun hfree => ?_, fun hfull => ?_⟩
    · simp [System.step, System.perform, hh, hch, Chan.send, hfree]
    · simp [System.step, System.perform, hh, hch, Chan.send, Nat.not_lt.mpr hfull]
  · obtain ⟨c, _, ch, _, _, hrc, hch, _, _, hcap, hlen, _⟩ :=
      owner_of (inv_of_reachable hreach) h
    exact ⟨c, ch, hrc, hch, hcap, hlen⟩

/-- Instance of C2 amended: an unknown id, a session in another phase and a session in
phase `PreparedToCommit` with an empty channel on the sample process, and the session "s"
with a full channel after the creation of "s", `/prepare`, the event step of the worker and one `/commit`. -/
theorem handleCommit_contract_witness :
    sampleSystem.step (.commit "PUT" "zz") = some (sampleSystem, [⟨400, .object
        [("error", "no session id exists with the provided ID")]⟩]) ∧
    sampleSystem.step (.commit "PUT" "i") = some (sampleSystem, [⟨400, .object
        [("error", "session cannot be commited.")]⟩]) ∧
    sampleSystem.step (.commit "PUT" "p") =
      some ({ sampleSystem with
          chans := (sampleSystem.chans.set 1 ⟨[StateCommited], 1, []⟩) },
        [⟨200, .object [("sessionId", "p"), ("status", "commited")]⟩]) ∧
    (System.after [.session "POST" "s", .prepare "PUT" "s", .workerEvent 0,
      .commit "PUT" "s"]).step (.commit "PUT" "s") =
      some ({ (System.after [.session "POST" "s", .prepare "PUT" "s", .workerEvent 0,
      .commit "PUT" "s"]) with
          chans := ((System.after [.session "POST" "s", .prepare "PUT" "s", .workerEvent 0,
      .commit "PUT" "s"]).chans.set 0
            ⟨[StateCommited], 1, [⟨StateCommited,
              ⟨200, .object [("sessionId", "s"), ("status", "commited")]⟩⟩]⟩) },
        []) :=
  ⟨(handleCommit_contract sampleSystem "zz").1 (by decide),
   (handleCommit_contract sampleSystem "i").2.1 ⟨StateInitialized, some 0⟩ (by decide) (by decide),
   ((handleCommit_contract sampleSystem "p").2.2.1 ⟨StatePreparedToCommit, some 1⟩ 1 (Chan.make 1)
      (by decide) rfl rfl (by decide)).2.1 (by decide),
   ((handleCommit_contract (System.after [.session "POST" "s", .prepare "PUT" "s", .workerEvent 0,
      .commit "PUT" "s"]) "s").2.2.1
      ⟨StatePreparedToCommit, some 0⟩ 0 ⟨[StateCommited], 1, []⟩ (by decide) rfl rfl (by decide)).2.2
      (by decide)⟩

end ThreePC

/-! ## Phase changes -/

namespace ThreePC

/-- One step from a state that satisfies the invariant keeps every entry of the store and
its channel field, and either keeps its stored phase or moves it along a legal edge. -/
theorem step_entry {s s1 : System} {out : List Response} (h : Inv s) (a : Action)
    (hstep : s.step a = some (s1, out)) {id : String} {m : SessionMetadata}
    (hm : s.sessions.lookup id = some m) :
    ∃ m1, s1.sessions.lookup id = some m1 ∧ m1.Reciever = m.Reciever ∧
      (m1.State = m.State ∨ LegalEdge m.State m1.State) := by
  have hsame : s1.sessions = s.sessions → ∃ m1, s1.sessions.lookup id = some m1 ∧
      m1.Reciever = m.Reciever ∧ (m1.State = m.State ∨ LegalEdge m.State m1.State) :=
    fun he => ⟨m, by rw [he]; exact hm, rfl, Or.inl rfl⟩
  cases a with
  | tick d =>
    simp only [System.step, Option.some.injEq, Prod.mk.injEq] at hstep
    obtain ⟨rfl, _⟩ := hstep
    exact hsame rfl
  | session method sessionId =>
    simp only [System.step] at hstep
    split at hstep
    · cases hstep
    · rename_i hguard
      by_cases hmeth : method = "POST"
      · have hne : id ≠ sessionId := by
          intro he
          subst he
          exact hguard ⟨hmeth, by simp [hm]⟩
        simp only [handleSession, hmeth, ne_eq, not_true_eq_false, if_false,
          Option.some.injEq, Prod.mk.injEq] at hstep
        obtain ⟨rfl, _⟩ := hstep
        exact ⟨m, by
          show AList.lookup id (AList.insert sessionId _ s.sessions) = some m
          rw [AList.lookup_insert_ne hne]; exact hm, rfl, Or.inl rfl⟩
      · simp only [handleSession, hmeth, ne_eq, not_false_eq_true, if_true,
          Option.some.injEq, Prod.mk.injEq] at hstep
        obtain ⟨rfl, _⟩ := hstep
        exact hsame rfl
  | sessions method =>
    simp only [System.step, Option.some.injEq, Prod.mk.injEq] at hstep
    obtain ⟨rfl, _⟩ := hstep
    exact hsame rfl
  | prepare method id1 =>
    simp only [System.step, Option.some.injEq] at hstep
    have := perform_sessions s (handlePrepare s.sessions method id1)
    rw [hstep] at this
    exact hsame this
  | commit method id1 =>
    simp only [System.step, Option.some.injEq] at hstep
    have := perform_sessions s (handleCommit s.sessions method id1)
    rw [hstep] at this
    exact hsame this
  | workerEvent w =>
    simp only [System.step] at hstep
    split at hstep
    · cases hstep
    · rename_i wk hw
      split at hstep
      · cases hstep
      · rename_i hlive
        split at hstep
        · cases hstep
        · rename_i ch hch
          split at hstep
          · cases hstep
          · rename_i event ch1 out1 hr
            simp only [Option.some.injEq, Prod.mk.injEq] at hstep
            obtain ⟨rfl, _⟩ := hstep
            by_cases hi : id = wk.id
            · obtain ⟨hev, m0, ch0, hm0, _, hch0, hrun0, _, hco⟩ := h.workerOk w wk hw
              rw [← hi, hm] at hm0
              cases hm0
              rw [hev] at hch
              rw [hch] at hch0
              cases hch0
              have hrun : wk.running = true := by simpa using hlive
              have hpend := (chanOk_recv hco hr).1
              refine ⟨⟨event, m.Reciever⟩, ?_, rfl, ?_⟩
              · show AList.lookup id (AList.insert wk.id _ s.sessions) = some _
                rw [hi, AList.lookup_insert, ← hi]
                simp [hm]
              · show event = m.State ∨ LegalEdge m.State event
                rcases hpend with hp | ⟨hp, hst⟩
                · rcases hrun0 hrun with h0 | h0
                  · exact Or.inr (Or.inl ⟨h0, hp⟩)
                  · exact Or.inl (by rw [hp, h0])
                · exact Or.inr (Or.inr (Or.inl ⟨hst hrun, hp⟩))
            · exact ⟨m, by
                show AList.lookup id (AList.insert wk.id _ s.sessions) = some m
                rw [AList.lookup_insert_ne hi]; exact hm, rfl, Or.inl rfl⟩
  | workerTimeout w =>
    simp only [System.step] at hstep
    split at hstep
    · cases hstep
    · rename_i wk hw
      split at hstep
      · cases hstep
      · rename_i hguard
        simp only [Option.some.injEq, Prod.mk.injEq] at hstep
        obtain ⟨rfl, _⟩ := hstep
        by_cases hi : id = wk.id
        · obtain ⟨_, m0, _, hm0, _, _, hrun0, _, _⟩ := h.workerOk w wk hw
          rw [← hi, hm] at hm0
          cases hm0
          have hrun : wk.running = true := by
            cases hb : wk.running with
            | true => rfl
            | false => exact absurd (Or.inl hb) hguard
          refine ⟨⟨StateAborted, m.Reciever⟩, ?_, rfl, Or.inr ?_⟩
          · show AList.lookup id (AList.insert wk.id _ s.sessions) = some _
            rw [hi, AList.lookup_insert, ← hi]
            simp [hm]
          · show LegalEdge m.State StateAborted
            rcases hrun0 hrun with h0 | h0
            · exact Or.inr (Or.inr (Or.inl ⟨h0, rfl⟩))
            · exact Or.inr (Or.inr (Or.inr ⟨h0, rfl⟩))
        · exact ⟨m, by
            show AList.lookup id (AList.insert wk.id _ s.sessions) = some m
            rw [AList.lookup_insert_ne hi]; exact hm, rfl, Or.inl rfl⟩

/-- A run from a reachable state ends in a reachable state. -/
theorem reachable_run {s : System} (h : Reachable s) :
    ∀ (acts : List Action) {s1 : System} {out : List Response},
      s.run acts = some (s1, out) → Reachable s1 := by
  intro acts
  induction acts generalizing s with
  | nil =>
    intro s1 out hrun
    simp only [System.run, Option.some.injEq, Prod.mk.injEq] at hrun
    rw [← hrun.1]
    exact h
  | cons a as ih =>
    intro s1 out hrun
    simp only [System.run] at hrun
    split at hrun
    · cases hrun
    · rename_i s2 out2 hstep
      split at hrun
      · cases hrun
      · rename_i s3 out3 hrest
        simp only [Option.some.injEq, Prod.mk.injEq] at hrun
        rw [← hrun.1]
        exact ih (Reachable.step a h hstep) hrest

/-- The state after actions that can all happen is reachable. -/
theorem reachable_after (acts : List Action) (h : (System.init.run acts).isSome = true) :
    Reachable (System.after acts) := by
  unfold System.after
  cases hr : System.init.run acts with
  | none => rw [hr] at h; cases h
  | some r => exact reachable_run Reachable.init acts (show _ = some (r.1, r.2) from hr)

/-- From a state that satisfies the invariant, a run keeps a terminal stored phase. -/
theorem run_terminal {id : String} {p : State}
    (hterm : p = StateAborted ∨ p = StateCommited) :
    ∀ (acts : List Action) {s s1 : System} {out : List Response}, Inv s →
      s.phase id = some p → s.run acts = some (s1, out) → s1.phase id = some p := by
  intro acts
  induction acts with
  | nil =>
    intro s s1 out _ hp hrun
    simp only [System.run, Option.some.injEq, Prod.mk.injEq] at hrun
    rw [← hrun.1]
    exact hp
  | cons a as ih =>
    intro s s1 out hinv hp hrun
    simp only [System.run] at hrun
    split at hrun
    · cases hrun
    · rename_i s2 out2 hstep
      split at hrun
      · cases hrun
      · rename_i s3 out3 hrest
        simp only [Option.some.injEq, Prod.mk.injEq] at hrun
        rw [← hrun.1]
        refine ih (inv_step hinv a hstep) ?_ hrest
        obtain ⟨m, hm, hst⟩ : ∃ m, s.sessions.lookup id = some m ∧ m.State = p := by
          simpa [System.phase] using hp
        obtain ⟨m1, hm1, _, hedge⟩ := step_entry hinv a hstep hm
        have hkeep : m1.State = p := by
          rcases hedge with he | he
          · rw [he, hst]
          · rw [hst] at he
            rcases hterm with ht | ht <;> subst ht <;>
              simp [LegalEdge, StateInitialized, StatePreparedToCommit, StateAborted,
                StateCommited] at he
        simp [System.phase, hm1, hkeep]

/-- C3. In every execution from the start of the process (so from before the creation
of the session), whatever the interleaving of requests, worker event steps and worker
timeout steps, a step that changes the stored phase of a session changes it along one of
the edges `Initialized → PreparedToCommit`, `PreparedToCommit → Commited`,
`Initialized → Aborted`, `PreparedToCommit → Aborted`; in particular never from
`Initialized` to `Commited`. -/
theorem phase_changes_legal (s s1 : System) (out : List Response) (a : Action)
    (hreach : Reachable s) (hstep : s.step a = some (s1, out)) (id : String) (p q : State)
    (hp : s.phase id = some p) (hq : s1.phase id = some q) (hne : p ≠ q) :
    LegalEdge p q ∧ ¬(p = StateInitialized ∧ q = StateCommited) := by
  obtain ⟨m, hm, hst⟩ : ∃ m, s.sessions.lookup id = some m ∧ m.State = p := by
    simpa [System.phase] using hp
  obtain ⟨m1, hm1, _, hedge⟩ := step_entry (inv_of_reachable hreach) a hstep hm
  have hq1 : m1.State = q := by
    simpa [System.phase, hm1] using hq
  rw [hst, hq1] at hedge
  have hlegal : LegalEdge p q := by
    rcases hedge with he | he
    · exact absurd he.symm hne
    · exact he
  refine ⟨hlegal, ?_⟩
  rintro ⟨h1, h2⟩
  subst h1
  subst h2
  revert hlegal
  decide

/-- Instance of C3: after a session is created and `/prepare` is served, the event step
of its worker moves the stored phase from `Initialized` to `PreparedToCommit`. -/
theorem phase_changes_legal_witness :
    LegalEdge StateInitialized StatePreparedToCommit ∧
      ¬(StateInitialized = StateInitialized ∧ StatePreparedToCommit = StateCommited) :=
  phase_changes_legal
    (System.after [.session "POST" "s", .prepare "PUT" "s"])
    (System.after [.session "POST" "s", .prepare "PUT" "s", .workerEvent 0]) []
    (.workerEvent 0) (reachable_after _ (by decide)) (by rfl) "s" StateInitialized
    StatePreparedToCommit (by decide) (by decide) (by decide)

/-- C4. Terminal phases are sticky. In every reachable state, (1) a session whose stored
phase is `Aborted` or `Commited` keeps that phase through every further run of requests
and worker steps, and (2) a running worker whose timer has fired can take its timeout
step, which stores `Aborted` for its session, and that session stays `Aborted` through
every further run, whatever requests arrive. -/
theorem terminal_sticky (s : System) (hreach : Reachable s) (id : String) :
    (∀ p, s.phase id = some p → (p = StateAborted ∨ p = StateCommited) →
      ∀ (acts : List Action) (s1 : System) (out : List Response),
        s.run acts = some (s1, out) → s1.phase id = some p) ∧
    (∀ (w : Nat) (wk : Worker), s.workers[w]? = some wk → wk.id = id →
      wk.running = true → wk.deadline ≤ s.clock →
      ∃ s1, s.step (.workerTimeout w) = some (s1, []) ∧ s1.phase id = some StateAborted ∧
        ∀ (acts : List Action) (s2 : System) (out : List Response),
          s1.run acts = some (s2, out) → s2.phase id = some StateAborted) := by
  have hinv := inv_of_reachable hreach
  refine ⟨fun p hp hterm acts s1 out hrun => run_terminal hterm acts hinv hp hrun, ?_⟩
  intro w wk hw hid hrun hdl
  have hstep : s.step (.workerTimeout w) =
      some ({ s with sessions := SessionManager.onTimeout s.sessions wk.id,
                     workers := s.workers.set w { wk with running := false } }, []) := by
    simp only [System.step, hw, hrun]
    simp [Nat.not_lt.mpr hdl]
  refine ⟨_, hstep, ?_, ?_⟩
  · simp [System.phase, SessionManager.onTimeout, hid]
  · intro acts s2 out hr2
    refine run_terminal (Or.inl rfl) acts (inv_step hinv _ hstep) ?_ hr2
    simp [System.phase, SessionManager.onTimeout, hid]

/-- Instance of C4: a session is created, its timer fires after `TIMEOUT`, the timeout
step stores `Aborted`, and `/prepare` and `/commit` afterwards leave it `Aborted`. -/
theorem terminal_sticky_witness :
    (System.after [.session "POST" "s", .tick TIMEOUT, .workerTimeout 0, .prepare "PUT" "s",
      .commit "PUT" "s"]).phase "s" = some StateAborted ∧
    ∃ s1, (System.after [.session "POST" "s", .tick TIMEOUT]).step (.workerTimeout 0) =
        some (s1, []) ∧ s1.phase "s" = some StateAborted ∧
      ∀ (acts : List Action) (s2 : System) (out : List Response),
        s1.run acts = some (s2, out) → s2.phase "s" = some StateAborted :=
  ⟨(terminal_sticky (System.after [.session "POST" "s", .tick TIMEOUT, .workerTimeout 0])
      (reachable_after _ (by decide)) "s").1 StateAborted (by decide) (Or.inl rfl)
      [.prepare "PUT" "s", .commit "PUT" "s"] _ [⟨400, .object
        [("error", "session cannot be prepared.")]⟩, ⟨400, .object
        [("error", "session cannot be commited.")]⟩] (by rfl),
   (terminal_sticky (System.after [.session "POST" "s", .tick TIMEOUT])
      (reachable_after _ (by decide)) "s").2 0 ⟨"s", 0, TIMEOUT, true⟩ (by decide) rfl rfl
      (by decide)⟩

end ThreePC

/-! ## Runs of one session -/

namespace ThreePC

/-- Under the invariant a fresh session is waiting with an empty channel. -/
theorem waiting_of_fresh {s : System} (h : Inv s) {id : String} {w : Nat}
    (hf : FreshSession s id w) : Waiting s id w StateInitialized [] [] := by
  obtain ⟨wk, ch, hw, hid, hrun, hp, hch, hbuf⟩ := hf
  obtain ⟨hev, m, ch0, hm, hrc, hch0, _, _, hcap, _, hq, _, _⟩ := h.workerOk w wk hw
  rw [hch] at hch0
  cases hch0
  rw [hid] at hm
  have hst : m.State = StateInitialized := by
    simpa [System.phase, hm] using hp
  refine ⟨wk, hw, hid, hev, hrun, ?_, ?_⟩
  · rw [hm]
    cases m
    simp only at hst hrc
    rw [hst, hrc]
  · rw [hch]
    cases ch
    simp only at hcap hbuf hq
    rw [hcap, hbuf, hq hbuf]

/-- On a waiting session in phase `Initialized` with an empty channel, `/prepare`
succeeds at once and its event is buffered. -/
theorem prepare_waiting {s : System} {id : String} {w : Nat}
    (h : Waiting s id w StateInitialized [] []) :
    ∃ s1, s.step (.prepare "PUT" id) = some (s1, [⟨200, .object
        [("sessionId", id), ("status", "prepared-to-commit")]⟩]) ∧
      Waiting s1 id w StateInitialized [StatePreparedToCommit] [] := by
  obtain ⟨wk, hw, hid, hev, hrun, hm, hch⟩ := h
  have hlt : w < s.chans.length := (List.getElem?_eq_some.mp hch).1
  have hs : StatePreparedToCommit.String = "prepared-to-commit" := by decide
  refine ⟨{ s with chans := s.chans.set w ⟨[StatePreparedToCommit], 1, []⟩ }, ?_, ?_⟩
  · simp [System.step, System.perform, handlePrepare, hm, hch, Chan.send, StatusOK, hs]
  · exact ⟨wk, hw, hid, hev, hrun, hm, List.getElem?_set_self hlt⟩

/-- On a waiting session in phase `Initialized` whose channel is full, `/prepare` passes
its check and blocks in the send: the step writes no response. -/
theorem prepare_waiting_full {s : System} {id : String} {w : Nat} {e : State}
    (h : Waiting s id w StateInitialized [e] []) :
    ∃ s1, s.step (.prepare "PUT" id) = some (s1, []) ∧
      Waiting s1 id w StateInitialized [e] [⟨StatePreparedToCommit, ⟨200, .object
        [("sessionId", id), ("status", "prepared-to-commit")]⟩⟩] := by
  obtain ⟨wk, hw, hid, hev, hrun, hm, hch⟩ := h
  have hlt : w < s.chans.length := (List.getElem?_eq_some.mp hch).1
  have hs : StatePreparedToCommit.String = "prepared-to-commit" := by decide
  refine ⟨{ s with chans := s.chans.set w ⟨[e], 1, [⟨StatePreparedToCommit, ⟨200, .object
        [("sessionId", id), ("status", "prepared-to-commit")]⟩⟩]⟩ }, ?_, ?_⟩
  · simp [System.step, System.perform, handlePrepare, hm, hch, Chan.send, StatusOK, hs]
  · exact ⟨wk, hw, hid, hev, hrun, hm, List.getElem?_set_self hlt⟩

/-- On a waiting session in phase `PreparedToCommit` with an empty channel, `/commit`
succeeds at once and its event is buffered. -/
theorem commit_waiting {s : System} {id : String} {w : Nat}
    (h : Waiting s id w StatePreparedToCommit [] []) :
    ∃ s1, s.step (.commit "PUT" id) = some (s1, [⟨200, .object
        [("sessionId", id), ("status", "commited")]⟩]) ∧
      Waiting s1 id w StatePreparedToCommit [StateCommited] [] := by
  obtain ⟨wk, hw, hid, hev, hrun, hm, hch⟩ := h
  have hlt : w < s.chans.length := (List.getElem?_eq_some.mp hch).1
  have hs : StateCommited.String = "commited" := by decide
  refine ⟨{ s with chans := s.chans.set w ⟨[StateCommited], 1, []⟩ }, ?_, ?_⟩
  · simp [System.step, System.perform, handleCommit, hm, hch, Chan.send, StatusOK, hs]
  · exact ⟨wk, hw, hid, hev, hrun, hm, List.getElem?_set_self hlt⟩

/-- The worker of a waiting session receives a buffered `PreparedToCommit`: it stores it,
stays in its loop, and the oldest blocked sender (if any) gets its value buffered and
writes its response. -/
theorem event_waiting {s : System} {id : String} {w : Nat} {p : State}
    {sendq : List Sender} (h : Waiting s id w p [StatePreparedToCommit] sendq) :
    ∃ s1, s.step (.workerEvent w) = some (s1, (sendq.head?.map (fun sd => sd.resp)).toList) ∧
      Waiting s1 id w StatePreparedToCommit (sendq.head?.map (fun sd => sd.val)).toList
        sendq.tail := by
  obtain ⟨wk, hw, hid, hev, hrun, hm, hch⟩ := h
  have hlt : w < s.chans.length := (List.getElem?_eq_some.mp hch).1
  have hwlt : w < s.workers.length := (List.getElem?_eq_some.mp hw).1
  have hne : StatePreparedToCommit ≠ StateCommited := by decide
  have hm1 : AList.lookup wk.id s.sessions = some ⟨p, some w⟩ := by rw [hid]; exact hm
  cases sendq with
  | nil =>
    refine ⟨⟨s.sessions.insert id ⟨StatePreparedToCommit, some w⟩,
      s.chans.set w ⟨[], 1, []⟩,
      s.workers.set w { wk with deadline := s.clock + TIMEOUT }, s.clock⟩, ?_, ?_⟩
    · simp [System.step, hw, hrun, hev, hch, Chan.recv, SessionManager.onEvent, hid, hm1, hne]
    · exact ⟨_, List.getElem?_set_self hwlt, hid, hev, hrun, AList.lookup_insert _,
        List.getElem?_set_self hlt⟩
  | cons sd q =>
    refine ⟨⟨s.sessions.insert id ⟨StatePreparedToCommit, some w⟩,
      s.chans.set w ⟨[sd.val], 1, q⟩,
      s.workers.set w { wk with deadline := s.clock + TIMEOUT }, s.clock⟩, ?_, ?_⟩
    · simp [System.step, hw, hrun, hev, hch, Chan.recv, SessionManager.onEvent, hid, hm1, hne]
    · exact ⟨_, List.getElem?_set_self hwlt, hid, hev, hrun, AList.lookup_insert _,
        List.getElem?_set_self hlt⟩

/-- The worker of a waiting session receives a buffered `Commited`: it stores it and
returns. -/
theorem event_waiting_commit {s : System} {id : String} {w : Nat} {p : State}
    (h : Waiting s id w p [StateCommited] []) :
    ∃ (s1 : System) (wk1 : Worker), s.step (.workerEvent w) = some (s1, []) ∧
      s1.phase id = some StateCommited ∧ s1.workers[w]? = some wk1 ∧ wk1.id = id ∧
      wk1.running = false := by
  obtain ⟨wk, hw, hid, hev, hrun, hm, hch⟩ := h
  have hwlt : w < s.workers.length := (List.getElem?_eq_some.mp hw).1
  have hm1 : AList.lookup wk.id s.sessions = some ⟨p, some w⟩ := by rw [hid]; exact hm
  refine ⟨⟨s.sessions.insert id ⟨StateCommited, some w⟩, s.chans.set w ⟨[], 1, []⟩,
      s.workers.set w { wk with running := false }, s.clock⟩, { wk with running := false },
      ?_, ?_, List.getElem?_set_self hwlt, hid, rfl⟩
  · simp [System.step, hw, hrun, hev, hch, Chan.recv, SessionManager.onEvent, hid, hm1]
  · simp [System.phase]

/-- A step from a state that satisfies the invariant never brings a stored phase back to
`Initialized`. -/
theorem step_not_initialized {s s1 : System} {out : List Response} (h : Inv s) (a : Action)
    (hstep : s.step a = some (s1, out)) {id : String}
    (hp : ∃ m, s.sessions.lookup id = some m ∧ m.State ≠ StateInitialized) :
    ∃ m1, s1.sessions.lookup id = some m1 ∧ m1.State ≠ StateInitialized := by
  obtain ⟨m, hm, hst⟩ := hp
  obtain ⟨m1, hm1, _, hedge⟩ := step_entry h a hstep hm
  refine ⟨m1, hm1, ?_⟩
  rcases hedge with he | he
  · rw [he]; exact hst
  · intro hi
    rw [hi] at he
    simp [LegalEdge, StateInitialized, StatePreparedToCommit, StateAborted,
      StateCommited] at he

/-- A run from a state that satisfies the invariant never brings a stored phase back to
`Initialized`. -/
theorem run_not_initialized {id : String} :
    ∀ (acts : List Action) {s s1 : System} {out : List Response}, Inv s →
      (∃ m, s.sessions.lookup id = some m ∧ m.State ≠ StateInitialized) →
      s.run acts = some (s1, out) →
      ∃ m1, s1.sessions.lookup id = some m1 ∧ m1.State ≠ StateInitialized := by
  intro acts
  induction acts with
  | nil =>
    intro s s1 out _ hp hrun
    simp only [System.run, Option.some.injEq, Prod.mk.injEq] at hrun
    rw [← hrun.1]
    exact hp
  | cons a as ih =>
    intro s s1 out hinv hp hrun
    simp only [System.run] at hrun
    split at hrun
    · cases hrun
    · rename_i s2 out2 hstep
      split at hrun
      · cases hrun
      · rename_i s3 out3 hrest
        simp only [Option.some.injEq, Prod.mk.injEq] at hrun
        rw [← hrun.1]
        exact ih (inv_step hinv a hstep) (step_not_initialized hinv a hstep hp) hrest

/-- After a step of its worker, event or timeout, the stored phase of a session is not
`Initialized`. -/
theorem worker_step_not_initialized {s s1 : System} {out : List Response} (h : Inv s)
    {w : Nat} {wk : Worker} (hw : s.workers[w]? = some wk) (a : Action)
    (ha : a = .workerEvent w ∨ a = .workerTimeout w) (hstep : s.step a = some (s1, out)) :
    ∃ m1, s1.sessions.lookup wk.id = some m1 ∧ m1.State ≠ StateInitialized := by
  obtain ⟨hev, m, ch, hm, _, hch, _, _, hco⟩ := h.workerOk w wk hw
  rcases ha with ha | ha
  · subst ha
    simp only [System.step, hw] at hstep
    split at hstep
    · cases hstep
    · rw [hev, hch] at hstep
      simp only at hstep
      split at hstep
      · cases hstep
      · rename_i event ch1 out1 hr
        simp only [Option.some.injEq, Prod.mk.injEq] at hstep
        obtain ⟨rfl, _⟩ := hstep
        refine ⟨⟨event, m.Reciever⟩, ?_, ?_⟩
        · show AList.lookup wk.id (AList.insert wk.id _ s.sessions) = some _
          rw [AList.lookup_insert]
          simp [hm]
        · show event ≠ StateInitialized
          rcases pending_cases (chanOk_recv hco hr).1 with hc | hc <;> rw [hc] <;> decide
  · subst ha
    simp only [System.step, hw] at hstep
    split at hstep
    · cases hstep
    · simp only [Option.some.injEq, Prod.mk.injEq] at hstep
      obtain ⟨rfl, _⟩ := hstep
      refine ⟨⟨StateAborted, m.Reciever⟩, ?_,
        show StateAborted ≠ StateInitialized by decide⟩
      show AList.lookup wk.id (AList.insert wk.id _ s.sessions) = some _
      rw [AList.lookup_insert]
      simp [hm]

/-- The first step of a run, split off. -/
theorem run_cons {s s2 : System} {a : Action} {as : List Action} {out : List Response}
    (hrun : s.run (a :: as) = some (s2, out)) :
    ∃ (s1 : System) (out1 out2 : List Response), s.step a = some (s1, out1) ∧
      s1.run as = some (s2, out2) ∧ out = out1 ++ out2 := by
  simp only [System.run] at hrun
  split at hrun
  · cases hrun
  · rename_i s1 out1 hstep
    split at hrun
    · cases hrun
    · rename_i s3 out3 hrest
      simp only [Option.some.injEq, Prod.mk.injEq] at hrun
      rw [← hrun.1]
      exact ⟨s1, out1, out3, hstep, hrest, hrun.2.symm⟩

end ThreePC

/-! ## Timer, races and blocking -/

namespace ThreePC

/-- C7, as the claim states it, fails. A worker starts at time 0, receives
`PreparedToCommit` 5 seconds later and nothing else. At time 0 + `TIMEOUT` its timeout
step cannot happen; its timer now fires at 5 seconds + `TIMEOUT`, and the timeout step
that stores `Aborted` happens then. -/
theorem deadline_is_reset_by_event :
    (System.init.run [.session "POST" "s", .prepare "PUT" "s", .tick 5000000000,
      .workerEvent 0, .tick 10000000000]).isSome = true ∧
    (System.after [.session "POST" "s", .prepare "PUT" "s", .tick 5000000000,
      .workerEvent 0, .tick 10000000000]).clock = 0 + TIMEOUT ∧
    (System.after [.session "POST" "s", .prepare "PUT" "s", .tick 5000000000,
      .workerEvent 0, .tick 10000000000]).step (.workerTimeout 0) = none ∧
    (System.after [.session "POST" "s", .prepare "PUT" "s", .tick 5000000000,
      .workerEvent 0, .tick 10000000000]).workers.map (fun wk => wk.deadline) =
        [5000000000 + TIMEOUT] ∧
    ((System.after [.session "POST" "s", .prepare "PUT" "s", .tick 5000000000,
      .workerEvent 0, .tick 10000000000, .tick 5000000000]).step (.workerTimeout 0)).map
        (fun r => r.1.phase "s") = some (some StateAborted) := by
  refine ⟨by decide, by decide, by rfl, by decide, by decide⟩

/-- C7, amended. The timer of a worker is started anew each time the worker re-enters
its `select`: when a running worker receives `PreparedToCommit` (at the current clock
value `t1`) and then no further event, its timeout step cannot happen before
`t1 + TIMEOUT` and can happen, storing `Aborted`, from `t1 + TIMEOUT` on, whatever the
time at which the worker was started (whatever its timer was before the event). -/
theorem deadline_rearmed (s : System) (w : Nat) (wk : Worker) (ch ch1 : Chan)
    (out : List Response) (hw : s.workers[w]? = some wk) (hrun : wk.running = true)
    (hch : s.chans[wk.events]? = some ch)
    (hrecv : ch.recv = some (StatePreparedToCommit, ch1, out)) (d : Nat) :
    (d < TIMEOUT → s.run [.workerEvent w, .tick d, .workerTimeout w] = none) ∧
    (TIMEOUT ≤ d → ∃ s2, s.run [.workerEvent w, .tick d, .workerTimeout w] = some (s2, out) ∧
      s2.phase wk.id = some StateAborted) := by
  have hwlt : w < s.workers.length := (List.getElem?_eq_some.mp hw).1
  have hne : StatePreparedToCommit ≠ StateCommited := by decide
  constructor
  · intro hd
    simp [System.run, System.step, hw, hrun, hch, hrecv, SessionManager.onEvent, hne,
      List.getElem?_set_self hwlt, hd]
  · intro hd
    refine ⟨⟨SessionManager.onTimeout
        (SessionManager.onEvent s.sessions wk.id StatePreparedToCommit).1 wk.id,
      s.chans.set wk.events ch1,
      (s.workers.set w { wk with deadline := s.clock + TIMEOUT }).set w
        { wk with deadline := s.clock + TIMEOUT, running := false },
      s.clock + d⟩, ?_, ?_⟩
    · simp [System.run, System.step, hw, hrun, hch, hrecv, SessionManager.onEvent, hne,
        List.getElem?_set_self hwlt, Nat.not_lt.mpr hd]
    · simp [System.phase, SessionManager.onTimeout]

/-- Instance of C7 amended: the session "s" created at time 0 whose worker receives
`PreparedToCommit` at 5 seconds; 10 seconds later (time 0 + `TIMEOUT`) the timeout step
cannot happen, 15 seconds later it stores `Aborted`. -/
theorem deadline_rearmed_witness :
    (System.after [.session "POST" "s", .prepare "PUT" "s", .tick 5000000000]).run
        [.workerEvent 0, .tick 10000000000, .workerTimeout 0] = none ∧
    ∃ s2, (System.after [.session "POST" "s", .prepare "PUT" "s", .tick 5000000000]).run
        [.workerEvent 0, .tick TIMEOUT, .workerTimeout 0] = some (s2, []) ∧
      s2.phase "s" = some StateAborted :=
  ⟨(deadline_rearmed (System.after [.session "POST" "s", .prepare "PUT" "s", .tick 5000000000])
      0 ⟨"s", 0, TIMEOUT, true⟩ ⟨[StatePreparedToCommit], 1, []⟩ ⟨[], 1, []⟩ [] (by decide)
      rfl (by decide) (by decide) 10000000000).1 (by decide),
   (deadline_rearmed (System.after [.session "POST" "s", .prepare "PUT" "s", .tick 5000000000])
      0 ⟨"s", 0, TIMEOUT, true⟩ ⟨[StatePreparedToCommit], 1, []⟩ ⟨[], 1, []⟩ [] (by decide)
      rfl (by decide) (by decide) TIMEOUT).2 (by decide)⟩

/-- A `/prepare` or `/commit` handler that sends does so on the channel of the entry of
its session. -/
theorem send_of_entry {sessions : Sessions} {method id : String} {c : Option Nat}
    {event : State} {r : Response}
    (hpass : handlePrepare sessions method id = .send c event r ∨
      handleCommit sessions method id = .send c event r) :
    ∃ m, sessions.lookup id = some m ∧ m.Reciever = c := by
  rcases hpass with hpass | hpass
  · unfold handlePrepare at hpass
    split at hpass
    · cases hpass
    · split at hpass
      · cases hpass
      · rename_i m hm
        split at hpass
        · cases hpass
        · simp only [Outcome.send.injEq] at hpass
          exact ⟨m, hm, hpass.1⟩
  · unfold handleCommit at hpass
    split at hpass
    · cases hpass
    · split at hpass
      · cases hpass
      · rename_i m hm
        split at hpass
        · cases hpass
        · simp only [Outcome.send.injEq] at hpass
          exact ⟨m, hm, hpass.1⟩

/-- C10, as the claim states it, fails. After the session "s" is created and one
`/prepare` is served, a second `/prepare` passes its validity check (the stored phase is
still `Initialized`), but the channel of the session, of capacity 1, already holds the
first event: there is no free slot, the handler blocks and the step writes no response. -/
theorem send_has_to_wait :
    (System.init.run [.session "POST" "s", .prepare "PUT" "s"]).isSome = true ∧
    handlePrepare (System.after [.session "POST" "s", .prepare "PUT" "s"]).sessions "PUT" "s" =
      .send (some 0) StatePreparedToCommit
        ⟨200, .object [("sessionId", "s"), ("status", "prepared-to-commit")]⟩ ∧
    (System.after [.session "POST" "s", .prepare "PUT" "s"]).chans =
      [⟨[StatePreparedToCommit], 1, []⟩] ∧
    ((System.after [.session "POST" "s", .prepare "PUT" "s"]).step (.prepare "PUT" "s")).map
      (fun r => (r.1.chans, r.2)) =
      some ([⟨[StatePreparedToCommit], 1, [⟨StatePreparedToCommit,
        ⟨200, .object [("sessionId", "s"), ("status", "prepared-to-commit")]⟩⟩]⟩], []) := by
  refine ⟨by decide, by decide, by decide, by decide⟩

/-- C10, amended. In every reachable state, when `/prepare` or `/commit` passes its
validity check for a session, the event channel of that session exists, has capacity 1
and holds at most one event. If it holds none, the event is enqueued at once and the
response is written in the same step. If it holds one (an earlier event that the worker
has not received yet), the handler has to wait: it is added to the blocked senders of
the channel and the step writes no response. -/
theorem send_waits_iff_full (s : System) (hreach : Reachable s) (method id : String)
    (c : Option Nat) (event : State) (r : Response)
    (hpass : handlePrepare s.sessions method id = .send c event r ∨
      handleCommit s.sessions method id = .send c event r) :
    ∃ (n : Nat) (ch : Chan), c = some n ∧ s.chans[n]? = some ch ∧ ch.cap = 1 ∧
      ch.buf.length ≤ 1 ∧
      (ch.buf = [] → s.perform (.send c event r) =
        ({ s with chans := s.chans.set n { ch with buf := [event] } }, [r])) ∧
      (ch.buf ≠ [] → s.perform (.send c event r) =
        ({ s with chans := s.chans.set n { ch with sendq := ch.sendq ++ [⟨event, r⟩] } },
          [])) := by
  obtain ⟨m, hm, hrc⟩ := send_of_entry hpass
  obtain ⟨n, wk, ch, _, _, hn, hch, _, _, hcap, hlen, _, _, _⟩ :=
    owner_of (inv_of_reachable hreach) hm
  rw [hrc] at hn
  refine ⟨n, ch, hn, hch, hcap, hlen, ?_, ?_⟩
  · intro hb
    simp [System.perform, hn, hch, Chan.send, hb, hcap]
  · intro hb
    have hpos : ¬ch.buf.length < ch.cap := by
      have : 0 < ch.buf.length := List.length_pos.mpr hb
      omega
    simp [System.perform, hn, hch, Chan.send, hpos]

/-- Instance of C10 amended: the second `/prepare` for the session "s", served while the
event of the first is still in the channel. -/
theorem send_waits_iff_full_witness :
    ∃ (n : Nat) (ch : Chan), some 0 = some n ∧
      (System.after [.session "POST" "s", .prepare "PUT" "s"]).chans[n]? = some ch ∧
      ch.cap = 1 ∧ ch.buf.length ≤ 1 ∧
      (ch.buf = [] → (System.after [.session "POST" "s", .prepare "PUT" "s"]).perform
          (.send (some 0) StatePreparedToCommit
            ⟨200, .object [("sessionId", "s"), ("status", "prepared-to-commit")]⟩) =
        ({ (System.after [.session "POST" "s", .prepare "PUT" "s"]) with
            chans := (System.after [.session "POST" "s", .prepare "PUT" "s"]).chans.set n
              { ch with buf := [StatePreparedToCommit] } },
          [⟨200, .object [("sessionId", "s"), ("status", "prepared-to-commit")]⟩])) ∧
      (ch.buf ≠ [] → (System.after [.session "POST" "s", .prepare "PUT" "s"]).perform
          (.send (some 0) StatePreparedToCommit
            ⟨200, .object [("sessionId", "s"), ("status", "prepared-to-commit")]⟩) =
        ({ (System.after [.session "POST" "s", .prepare "PUT" "s"]) with
            chans := (System.after [.session "POST" "s", .prepare "PUT" "s"]).chans.set n
              { ch with sendq := ch.sendq ++ [⟨StatePreparedToCommit,
                ⟨200, .object [("sessionId", "s"), ("status", "prepared-to-commit")]⟩⟩] } },
          [])) :=
  send_waits_iff_full (System.after [.session "POST" "s", .prepare "PUT" "s"])
    (reachable_after _ (by decide)) "PUT" "s" (some 0) StatePreparedToCommit
    ⟨200, .object [("sessionId", "s"), ("status", "prepared-to-commit")]⟩
    (Or.inl (by decide))

end ThreePC

/-! ## Creation, worker steps and terminal sessions -/

namespace ThreePC

/-- C11. Session creation (`POST /session`) with a generated identifier that is not in
the store happens and writes the response with that identifier; afterwards the store maps
the identifier to the phase `Initialized` and to a channel that did not exist before and
is now empty with capacity 1, a running worker for the identifier receives on that
channel, and every other entry of the store, every older channel and every older worker
is as before. -/
theorem session_creates (s : System) (sessionId : String)
    (hfresh : s.sessions.lookup sessionId = none) :
    ∃ s1, s.step (.session "POST" sessionId) =
        some (s1, [⟨200, .object [("sessionId", sessionId)]⟩]) ∧
      s1.sessions.lookup sessionId = some ⟨StateInitialized, some s.chans.length⟩ ∧
      s.chans[s.chans.length]? = none ∧
      s1.chans[s.chans.length]? = some ⟨[], 1, []⟩ ∧
      s1.workers[s.workers.length]? =
        some ⟨sessionId, s.chans.length, s.clock + TIMEOUT, true⟩ ∧
      (∀ id, id ≠ sessionId → s1.sessions.lookup id = s.sessions.lookup id) ∧
      (∀ c, c < s.chans.length → s1.chans[c]? = s.chans[c]?) ∧
      (∀ w, w < s.workers.length → s1.workers[w]? = s.workers[w]?) := by
  refine ⟨⟨s.sessions.insert sessionId ⟨StateInitialized, some s.chans.length⟩,
      s.chans ++ [Chan.make 1], s.workers ++ [⟨sessionId, s.chans.length, s.clock + TIMEOUT,
        true⟩], s.clock⟩, ?_, ?_, ?_, ?_, ?_, ?_, ?_, ?_⟩
  · simp [System.step, handleSession, hfresh, StatusOK]
  · exact AList.lookup_insert _
  · exact List.getElem?_eq_none (Nat.le_refl _)
  · exact List.getElem?_concat_length _ _
  · exact List.getElem?_concat_length _ _
  · intro id hne
    exact AList.lookup_insert_ne hne
  · intro c hc
    exact List.getElem?_append_left hc
  · intro w hw
    exact List.getElem?_append_left hw

/-- Instance of C11: the session "s" created in the process at its start. -/
theorem session_creates_witness :
    ∃ s1, System.init.step (.session "POST" "s") =
        some (s1, [⟨200, .object [("sessionId", "s")]⟩]) ∧
      s1.sessions.lookup "s" = some ⟨StateInitialized, some System.init.chans.length⟩ ∧
      System.init.chans[System.init.chans.length]? = none ∧
      s1.chans[System.init.chans.length]? = some ⟨[], 1, []⟩ ∧
      s1.workers[System.init.workers.length]? =
        some ⟨"s", System.init.chans.length, System.init.clock + TIMEOUT, true⟩ ∧
      (∀ id, id ≠ "s" → s1.sessions.lookup id = System.init.sessions.lookup id) ∧
      (∀ c, c < System.init.chans.length → s1.chans[c]? = System.init.chans[c]?) ∧
      (∀ w, w < System.init.workers.length → s1.workers[w]? = System.init.workers[w]?) :=
  session_creates System.init "s" (by decide)

/-- C13. A request for a session whose worker has returned is rejected and not
delivered: when the stored phase of a session is `Commited` or `Aborted`, `/prepare` and
`/commit` for it both write the invalid-transition error (400) and leave the whole
process, so also the channel of the session, as it is. -/
theorem terminal_requests_rejected (s : System) (id : String) (m : SessionMetadata)
    (hm : s.sessions.lookup id = some m)
    (hterm : m.State = StateCommited ∨ m.State = StateAborted) :
    s.step (.prepare "PUT" id) = some (s, [⟨400, .object
      [("error", "session cannot be prepared.")]⟩]) ∧
    s.step (.commit "PUT" id) = some (s, [⟨400, .object
      [("error", "session cannot be commited.")]⟩]) := by
  have h1 : m.State ≠ StateInitialized := by
    rcases hterm with h | h <;> rw [h] <;> decide
  have h2 : m.State ≠ StatePreparedToCommit := by
    rcases hterm with h | h <;> rw [h] <;> decide
  constructor
  · simp [System.step, System.perform, handlePrepare, hm, h1, StatusBadRequest]
  · simp [System.step, System.perform, handleCommit, hm, h2, StatusBadRequest]

/-- Instance of C13 on the sample process: the aborted session "a". -/
theorem terminal_requests_rejected_witness :
    sampleSystem.step (.prepare "PUT" "a") = some (sampleSystem, [⟨400, .object
      [("error", "session cannot be prepared.")]⟩]) ∧
    sampleSystem.step (.commit "PUT" "a") = some (sampleSystem, [⟨400, .object
      [("error", "session cannot be commited.")]⟩]) :=
  terminal_requests_rejected sampleSystem "a" ⟨StateAborted, some 2⟩ (by decide)
    (Or.inr rfl)

/-- C14. The event step of a running worker that receives the event `E`: the step
happens, the stored phase of the session of the worker becomes `E`, the channel field of
that entry is kept, every other entry of the store is as before, and afterwards the
worker has returned if and only if `E` is `Commited` (for any other event it is still
running). -/
theorem workerEvent_effect (s : System) (w : Nat) (wk : Worker) (ch ch1 : Chan)
    (E : State) (out : List Response) (m : SessionMetadata)
    (hw : s.workers[w]? = some wk) (hrun : wk.running = true)
    (hch : s.chans[wk.events]? = some ch) (hrecv : ch.recv = some (E, ch1, out))
    (hm : s.sessions.lookup wk.id = some m) :
    ∃ (s1 : System) (wk1 : Worker), s.step (.workerEvent w) = some (s1, out) ∧
      s1.sessions.lookup wk.id = some ⟨E, m.Reciever⟩ ∧
      (∀ id, id ≠ wk.id → s1.sessions.lookup id = s.sessions.lookup id) ∧
      s1.workers[w]? = some wk1 ∧ (wk1.running = false ↔ E = StateCommited) := by
  have hwlt : w < s.workers.length := (List.getElem?_eq_some.mp hw).1
  refine ⟨⟨s.sessions.insert wk.id ⟨E, m.Reciever⟩, s.chans.set wk.events ch1,
      s.workers.set w (if E = StateCommited then { wk with running := false }
        else { wk with deadline := s.clock + TIMEOUT }), s.clock⟩, _, ?_, ?_, ?_,
      List.getElem?_set_self hwlt, ?_⟩
  · by_cases hE : E = StateCommited <;>
      simp [System.step, hw, hrun, hch, hrecv, SessionManager.onEvent, hm, hE]
  · exact AList.lookup_insert _
  · intro id hne
    exact AList.lookup_insert_ne hne
  · by_cases hE : E = StateCommited <;> simp [hE, hrun]

/-- Instance of C14: the worker of the session "s" receives `PreparedToCommit`. -/
theorem workerEvent_effect_witness :
    ∃ (s1 : System) (wk1 : Worker),
      (System.after [.session "POST" "s", .prepare "PUT" "s"]).step (.workerEvent 0) =
        some (s1, []) ∧
      s1.sessions.lookup "s" = some ⟨StatePreparedToCommit, some 0⟩ ∧
      (∀ id, id ≠ "s" → s1.sessions.lookup id =
        (System.after [.session "POST" "s", .prepare "PUT" "s"]).sessions.lookup id) ∧
      s1.workers[0]? = some wk1 ∧
      (wk1.running = false ↔ StatePreparedToCommit = StateCommited) :=
  workerEvent_effect (System.after [.session "POST" "s", .prepare "PUT" "s"]) 0
    ⟨"s", 0, TIMEOUT, true⟩ ⟨[StatePreparedToCommit], 1, []⟩ ⟨[], 1, []⟩
    StatePreparedToCommit [] ⟨StateInitialized, some 0⟩ (by decide) rfl (by decide)
    (by decide) (by decide)

/-- C15. The timeout step of a running worker whose timer has fired: the step happens,
the stored phase of the session of the worker becomes `Aborted` whatever it was, the
channel field of that entry is kept, every other entry of the store is as before, and
the worker has returned. -/
theorem workerTimeout_effect (s : System) (w : Nat) (wk : Worker) (m : SessionMetadata)
    (hw : s.workers[w]? = some wk) (hrun : wk.running = true)
    (hfired : wk.deadline ≤ s.clock) (hm : s.sessions.lookup wk.id = some m) :
    ∃ (s1 : System) (wk1 : Worker), s.step (.workerTimeout w) = some (s1, []) ∧
      s1.sessions.lookup wk.id = some ⟨StateAborted, m.Reciever⟩ ∧
      (∀ id, id ≠ wk.id → s1.sessions.lookup id = s.sessions.lookup id) ∧
      s1.workers[w]? = some wk1 ∧ wk1.running = false := by
  have hwlt : w < s.workers.length := (List.getElem?_eq_some.mp hw).1
  refine ⟨{ s with sessions := s.sessions.insert wk.id ⟨StateAborted, m.Reciever⟩,
                   workers := s.workers.set w { wk with running := false } }, _, ?_, ?_, ?_,
      List.getElem?_set_self hwlt, rfl⟩
  · simp [System.step, hw, hrun, Nat.not_lt.mpr hfired, SessionManager.onTimeout, hm]
  · exact AList.lookup_insert _
  · intro id hne
    exact AList.lookup_insert_ne hne

/-- Instance of C15: the worker of the prepared session "s" times out. -/
theorem workerTimeout_effect_witness :
    ∃ (s1 : System) (wk1 : Worker),
      (System.after [.session "POST" "s", .prepare "PUT" "s", .workerEvent 0,
        .tick TIMEOUT]).step (.workerTimeout 0) = some (s1, []) ∧
      s1.sessions.lookup "s" = some ⟨StateAborted, some 0⟩ ∧
      (∀ id, id ≠ "s" → s1.sessions.lookup id =
        (System.after [.session "POST" "s", .prepare "PUT" "s", .workerEvent 0,
          .tick TIMEOUT]).sessions.lookup id) ∧
      s1.workers[0]? = some wk1 ∧ wk1.running = false :=
  workerTimeout_effect (System.after [.session "POST" "s", .prepare "PUT" "s",
      .workerEvent 0, .tick TIMEOUT]) 0 ⟨"s", 0, TIMEOUT, true⟩
    ⟨StatePreparedToCommit, some 0⟩ (by decide) rfl (by decide) (by decide)

end ThreePC

/-! ## The readable view and the life of store entries -/

namespace ThreePC

/-- Folding the loop body of `readableSessions` over entries with distinct keys: an id
among the entries gets the label of its state, any other id keeps what the map held. -/
theorem foldl_insert_lookup (id : String) :
    ∀ (l : List (Sigma fun _ : String => SessionMetadata)), l.NodupKeys →
      ∀ acc : AList (fun _ : String => String),
        (l.foldl (fun readableSession e => readableSession.insert e.1 e.2.State.String)
          acc).lookup id =
          match l.dlookup id with
          | some m => some m.State.String
          | none => acc.lookup id := by
  intro l
  induction l with
  | nil =>
    intro _ acc
    simp
  | cons e l ih =>
    intro hnd acc
    obtain ⟨hnotin, hnd1⟩ := List.nodupKeys_cons.mp hnd
    simp only [List.foldl_cons]
    rw [ih hnd1]
    obtain ⟨k, v⟩ := e
    by_cases hk : id = k
    · subst hk
      have hnone : l.dlookup id = none := List.dlookup_eq_none.mpr hnotin
      rw [hnone, List.dlookup_cons_eq]
      exact AList.lookup_insert _
    · rw [List.dlookup_cons_ne l ⟨k, v⟩ hk]
      cases hl : l.dlookup id with
      | some m => rfl
      | none => exact AList.lookup_insert_ne hk

/-- The readable view maps each id of the store to the label of its stored phase, and no
other id. -/
theorem readableSessions_lookup (sessions : Sessions) (id : String) :
    (readableSessions sessions).lookup id =
      (sessions.lookup id).map (fun m => m.State.String) := by
  unfold readableSessions
  rw [foldl_insert_lookup id sessions.entries sessions.nodupKeys]
  have hl : sessions.lookup id = List.dlookup id sessions.entries := rfl
  rw [hl]
  cases List.dlookup id sessions.entries with
  | some m => rfl
  | none => rfl

/-- How a step changes the store: not at all, or by the entry of a created session, or
by the entry of the session of the worker that takes the step. -/
theorem step_sessions {s s1 : System} {out : List Response} {a : Action}
    (hstep : s.step a = some (s1, out)) :
    s1.sessions = s.sessions ∨
    (∃ sessionId, a = .session "POST" sessionId ∧ s.sessions.lookup sessionId = none ∧
      s1.sessions = s.sessions.insert sessionId ⟨StateInitialized, some s.chans.length⟩) ∨
    (∃ (w : Nat) (wk : Worker) (st : State), s.workers[w]? = some wk ∧
      (a = .workerEvent w ∨ a = .workerTimeout w) ∧
      s1.sessions = s.sessions.insert wk.id
        ⟨st, ((s.sessions.lookup wk.id).getD SessionMetadata.zero).Reciever⟩) := by
  cases a with
  | tick d =>
    simp only [System.step, Option.some.injEq, Prod.mk.injEq] at hstep
    obtain ⟨rfl, _⟩ := hstep
    exact Or.inl rfl
  | session method sessionId =>
    simp only [System.step] at hstep
    split at hstep
    · cases hstep
    · rename_i hguard
      by_cases hmeth : method = "POST"
      · have hfresh : s.sessions.lookup sessionId = none := by
          cases hl : s.sessions.lookup sessionId with
          | none => rfl
          | some m => exact absurd ⟨hmeth, by simp [hl]⟩ hguard
        simp only [handleSession, hmeth, ne_eq, not_true_eq_false, if_false,
          Option.some.injEq, Prod.mk.injEq] at hstep
        obtain ⟨rfl, _⟩ := hstep
        exact Or.inr (Or.inl ⟨sessionId, by rw [hmeth], hfresh, rfl⟩)
      · simp only [handleSession, hmeth, ne_eq, not_false_eq_true, if_true,
          Option.some.injEq, Prod.mk.injEq] at hstep
        obtain ⟨rfl, _⟩ := hstep
        exact Or.inl rfl
  | sessions method =>
    simp only [System.step, Option.some.injEq, Prod.mk.injEq] at hstep
    obtain ⟨rfl, _⟩ := hstep
    exact Or.inl rfl
  | prepare method id1 =>
    simp only [System.step, Option.some.injEq] at hstep
    have := perform_sessions s (handlePrepare s.sessions method id1)
    rw [hstep] at this
    exact Or.inl this
  | commit method id1 =>
    simp only [System.step, Option.some.injEq] at hstep
    have := perform_sessions s (handleCommit s.sessions method id1)
    rw [hstep] at this
    exact Or.inl this
  | workerEvent w =>
    simp only [System.step] at hstep
    split at hstep
    · cases hstep
    · rename_i wk hw
      split at hstep
      · cases hstep
      · split at hstep
        · cases hstep
        · split at hstep
          · cases hstep
          · rename_i event ch1 out1 hr
            simp only [Option.some.injEq, Prod.mk.injEq] at hstep
            obtain ⟨rfl, _⟩ := hstep
            exact Or.inr (Or.inr ⟨w, wk, event, hw, Or.inl rfl, rfl⟩)
  | workerTimeout w =>
    simp only [System.step] at hstep
    split at hstep
    · cases hstep
    · rename_i wk hw
      split at hstep
      · cases hstep
      · simp only [Option.some.injEq, Prod.mk.injEq] at hstep
        obtain ⟨rfl, _⟩ := hstep
        exact Or.inr (Or.inr ⟨w, wk, StateAborted, hw, Or.inr rfl, rfl⟩)

/-- An entry that is in the store stays in it when any entry is written. -/
theorem lookup_insert_isSome (sessions : Sessions) (k : String) (v : SessionMetadata)
    (id : String) (h : (sessions.lookup id).isSome = true) :
    ((sessions.insert k v).lookup id).isSome = true := by
  by_cases hk : id = k
  · subst hk
    rw [AList.lookup_insert]
    rfl
  · rw [AList.lookup_insert_ne hk]
    exact h

/-- C12. The map that `readableSessions` returns has exactly the ids of the store, each
mapped to `State.String` of the stored phase of that session; and serving `GET /sessions`,
which writes this map, leaves the process, so also the store, as it is. -/
theorem readableSessions_view (s : System) (id : String) :
    (readableSessions s.sessions).lookup id =
      (s.sessions.lookup id).map (fun m => m.State.String) ∧
    (id ∈ (readableSessions s.sessions).keys ↔ id ∈ s.sessions.keys) ∧
    s.step (.sessions "GET") = some (s, [⟨200, .object
      (jsonFields (readableSessions s.sessions))⟩]) := by
  refine ⟨readableSessions_lookup s.sessions id, ?_, ?_⟩
  · rw [← AList.mem_keys, ← AList.mem_keys, ← AList.lookup_isSome, ← AList.lookup_isSome,
      readableSessions_lookup]
    simp
  · simp [System.step, handleSessions, StatusOK]

/-- Instance of C12 on the sample process: the prepared session "p" and the unknown id
"zz". -/
theorem readableSessions_view_witness :
    (readableSessions sampleSystem.sessions).lookup "p" = some "prepared-to-commit" ∧
    (readableSessions sampleSystem.sessions).lookup "zz" = none :=
  ⟨(readableSessions_view sampleSystem "p").1, (readableSessions_view sampleSystem "zz").1⟩

/-- C16. In every reachable state a session of the store has exactly one worker, and that
worker has returned if and only if the stored phase of the session is `Commited` or
`Aborted`; it is running if and only if the stored phase is `Initialized` or
`PreparedToCommit`. -/
theorem worker_exited_iff_terminal (s : System) (hreach : Reachable s) (id : String)
    (m : SessionMetadata) (hm : s.sessions.lookup id = some m) :
    ∃ (w : Nat) (wk : Worker), s.workers[w]? = some wk ∧ wk.id = id ∧
      (∀ (w1 : Nat) (wk1 : Worker), s.workers[w1]? = some wk1 → wk1.id = id → w1 = w) ∧
      (wk.running = false ↔ (m.State = StateCommited ∨ m.State = StateAborted)) ∧
      (wk.running = true ↔ (m.State = StateInitialized ∨ m.State = StatePreparedToCommit)) := by
  have hinv := inv_of_reachable hreach
  obtain ⟨w, wk, _, hw, hid, _, _, hrun, hstop, _⟩ := owner_of hinv hm
  refine ⟨w, wk, hw, hid, ?_, ?_, ?_⟩
  · intro w1 wk1 hw1 hid1
    exact hinv.unique w1 w wk1 wk hw1 hw (by rw [hid1, hid])
  · constructor
    · intro hb
      exact (hstop hb).symm
    · intro hterm
      cases hb : wk.running with
      | false => rfl
      | true =>
        rcases hrun hb with h | h <;> rcases hterm with ht | ht <;> rw [h] at ht <;>
          revert ht <;> decide
  · constructor
    · exact hrun
    · intro hlive
      cases hb : wk.running with
      | true => rfl
      | false =>
        rcases hstop hb with h | h <;> rcases hlive with ht | ht <;> rw [h] at ht <;>
          revert ht <;> decide

/-- Instance of C16: the session "s" after its worker has timed out. -/
theorem worker_exited_iff_terminal_witness :
    ∃ (w : Nat) (wk : Worker),
      (System.after [.session "POST" "s", .tick TIMEOUT, .workerTimeout 0]).workers[w]? =
        some wk ∧ wk.id = "s" ∧
      (∀ (w1 : Nat) (wk1 : Worker),
        (System.after [.session "POST" "s", .tick TIMEOUT, .workerTimeout 0]).workers[w1]? =
          some wk1 → wk1.id = "s" → w1 = w) ∧
      (wk.running = false ↔ (StateAborted = StateCommited ∨ StateAborted = StateAborted)) ∧
      (wk.running = true ↔
        (StateAborted = StateInitialized ∨ StateAborted = StatePreparedToCommit)) :=
  worker_exited_iff_terminal
    (System.after [.session "POST" "s", .tick TIMEOUT, .workerTimeout 0])
    (reachable_after _ (by decide)) "s" ⟨StateAborted, some 0⟩ (by decide)

/-- C17. No phantom phases. In every reachable state the stored phase of a session is one
of the four phases, so the readable view never shows the label "unknown" for it; and a
step that changes what the store holds as the phase of a session is either the creation
of that session, which enters it with `Initialized`, or a step (event or timeout) of a
worker of that session. -/
theorem no_phantom_phases (s : System) (hreach : Reachable s) (id : String) :
    (∀ m, s.sessions.lookup id = some m →
      m.State = StateInitialized ∨ m.State = StatePreparedToCommit ∨
        m.State = StateAborted ∨ m.State = StateCommited) ∧
    (readableSessions s.sessions).lookup id ≠ some "unknown" ∧
    (∀ (a : Action) (s1 : System) (out : List Response), s.step a = some (s1, out) →
      s1.phase id ≠ s.phase id →
      (a = .session "POST" id ∧ s.phase id = none ∧ s1.phase id = some StateInitialized) ∨
      (∃ (w : Nat) (wk : Worker), s.workers[w]? = some wk ∧ wk.id = id ∧
        (a = .workerEvent w ∨ a = .workerTimeout w))) := by
  have hinv := inv_of_reachable hreach
  have hfour : ∀ m, s.sessions.lookup id = some m →
      m.State = StateInitialized ∨ m.State = StatePreparedToCommit ∨
        m.State = StateAborted ∨ m.State = StateCommited := by
    intro m hm
    obtain ⟨w, wk, _, _, _, _, _, hrun, hstop, _⟩ := owner_of hinv hm
    cases hb : wk.running with
    | true =>
      rcases hrun hb with h | h
      · exact Or.inl h
      · exact Or.inr (Or.inl h)
    | false =>
      rcases hstop hb with h | h
      · exact Or.inr (Or.inr (Or.inl h))
      · exact Or.inr (Or.inr (Or.inr h))
  refine ⟨hfour, ?_, ?_⟩
  · rw [readableSessions_lookup]
    cases hm : s.sessions.lookup id with
    | none => simp
    | some m =>
      rcases hfour m hm with h | h | h | h <;> simp only [Option.map_some', h] <;> decide
  · intro a s1 out hstep hne
    rcases step_sessions hstep with h | ⟨sessionId, ha, hfresh, h⟩ | ⟨w, wk, st, hw, ha, h⟩
    · exact absurd (by simp [System.phase, h]) hne
    · by_cases hi : id = sessionId
      · subst hi
        refine Or.inl ⟨ha, by simp [System.phase, hfresh], ?_⟩
        simp [System.phase, h]
      · exact absurd (by simp [System.phase, h, AList.lookup_insert_ne hi]) hne
    · by_cases hi : id = wk.id
      · exact Or.inr ⟨w, wk, hw, hi.symm, ha⟩
      · exact absurd (by simp [System.phase, h, AList.lookup_insert_ne hi]) hne

/-- Instance of C17: the session "s" after `/prepare` and the event step of its worker. -/
theorem no_phantom_phases_witness :
    (readableSessions (System.after [.session "POST" "s", .prepare "PUT" "s",
      .workerEvent 0]).sessions).lookup "s" ≠ some "unknown" :=
  (no_phantom_phases (System.after [.session "POST" "s", .prepare "PUT" "s", .workerEvent 0])
    (reachable_after _ (by decide)) "s").2.1

/-- C18. Store entries are never removed: after any step (time passing, session
creation, `/sessions`, `/prepare`, `/commit`, worker event step, worker timeout step)
every id that was in the store is still in it; and from a reachable state a worker step
adds no id. -/
theorem entries_never_removed (s s1 : System) (a : Action) (out : List Response)
    (hstep : s.step a = some (s1, out)) :
    (∀ id, (s.sessions.lookup id).isSome = true → (s1.sessions.lookup id).isSome = true) ∧
    (Reachable s → (∃ w, a = .workerEvent w ∨ a = .workerTimeout w) →
      ∀ id, (s1.sessions.lookup id).isSome = true → (s.sessions.lookup id).isSome = true) := by
  constructor
  · intro id hid
    rcases step_sessions hstep with h | ⟨sessionId, _, _, h⟩ | ⟨w, wk, st, _, _, h⟩
    · rw [h]; exact hid
    · rw [h]; exact lookup_insert_isSome _ _ _ _ hid
    · rw [h]; exact lookup_insert_isSome _ _ _ _ hid
  · intro hreach hworker id hid
    have hinv := inv_of_reachable hreach
    rcases step_sessions hstep with h | ⟨sessionId, ha, _, _⟩ | ⟨w, wk, st, hw, _, h⟩
    · rw [← h]; exact hid
    · obtain ⟨w, hw | hw⟩ := hworker <;> rw [hw] at ha <;> cases ha
    · by_cases hi : id = wk.id
      · obtain ⟨_, m, _, hm, _⟩ := hinv.workerOk w wk hw
        rw [hi, hm]
        rfl
      · rw [h, AList.lookup_insert_ne hi] at hid
        exact hid

/-- Instance of C18: the event step of the worker of the session "s" keeps the id "s"
in the store. -/
theorem entries_never_removed_witness :
    ((System.after [.session "POST" "s", .prepare "PUT" "s",
      .workerEvent 0]).sessions.lookup "s").isSome = true :=
  (entries_never_removed (System.after [.session "POST" "s", .prepare "PUT" "s"])
    (System.after [.session "POST" "s", .prepare "PUT" "s", .workerEvent 0])
    (.workerEvent 0) [] (by rfl)).1 "s" (by decide)

end ThreePC

/-! ## Runs with other sessions in between -/

namespace ThreePC

/-- A run over two lists of actions is a run over the first followed by a run over the
second. -/
theorem run_append {ys : List Action} {s2 : System} :
    ∀ (xs : List Action) {s : System} {out : List Response},
      s.run (xs ++ ys) = some (s2, out) →
      ∃ (s1 : System) (o1 o2 : List Response), s.run xs = some (s1, o1) ∧
        s1.run ys = some (s2, o2) ∧ out = o1 ++ o2 := by
  intro xs
  induction xs with
  | nil =>
    intro s out h
    exact ⟨s, [], out, rfl, h, rfl⟩
  | cons a xs ih =>
    intro s out h
    obtain ⟨sa, oa, ob, hstep, hrest, hout⟩ :=
      run_cons (show s.run (a :: (xs ++ ys)) = _ from h)
    obtain ⟨s1, o1, o2, h1, h2, hob⟩ := ih hrest
    refine ⟨s1, oa ++ o1, o2, ?_, h2, ?_⟩
    · simp [System.run, hstep, h1]
    · rw [hout, hob, List.append_assoc]

/-- A run keeps the invariant. -/
theorem inv_run :
    ∀ (acts : List Action) {s s1 : System} {out : List Response}, Inv s →
      s.run acts = some (s1, out) → Inv s1 := by
  intro acts
  induction acts with
  | nil =>
    intro s s1 out h hrun
    simp only [System.run, Option.some.injEq, Prod.mk.injEq] at hrun
    rw [← hrun.1]
    exact h
  | cons a as ih =>
    intro s s1 out h hrun
    obtain ⟨sa, _, _, hstep, hrest, _⟩ := run_cons hrun
    exact ih (inv_step h a hstep) hrest

/-- Running what a handler does leaves the workers as they are. -/
theorem perform_workers (s : System) (o : Outcome) : (s.perform o).1.workers = s.workers := by
  unfold System.perform
  split
  · rfl
  · rfl
  · split <;> rfl

/-- Running what a handler does leaves every channel other than the one sent on as it
is. -/
theorem perform_chans (s : System) (o : Outcome) (w : Nat)
    (h : ∀ n event r, o = .send (some n) event r → n ≠ w) :
    (s.perform o).1.chans[w]? = s.chans[w]? := by
  cases o with
  | reply r => rfl
  | send c event r =>
    cases c with
    | none => rfl
    | some n =>
      have hne : n ≠ w := h n event r rfl
      cases hch : s.chans[n]? with
      | none => simp [System.perform, hch]
      | some ch => simp [System.perform, hch, List.getElem?_set_ne hne]

/-- A step keeps every worker at its position, with its session and its channel. -/
theorem step_worker_kept {s s1 : System} {out : List Response} {a : Action}
    (hstep : s.step a = some (s1, out)) {w : Nat} {wk : Worker}
    (hw : s.workers[w]? = some wk) :
    ∃ wk1, s1.workers[w]? = some wk1 ∧ wk1.id = wk.id ∧ wk1.events = wk.events := by
  have hsame : s1.workers = s.workers → ∃ wk1, s1.workers[w]? = some wk1 ∧
      wk1.id = wk.id ∧ wk1.events = wk.events := fun he => ⟨wk, by rw [he]; exact hw, rfl, rfl⟩
  have hwlt : w < s.workers.length := (List.getElem?_eq_some.mp hw).1
  cases a with
  | tick d =>
    simp only [System.step, Option.some.injEq, Prod.mk.injEq] at hstep
    obtain ⟨rfl, _⟩ := hstep
    exact hsame rfl
  | session method sessionId =>
    simp only [System.step] at hstep
    split at hstep
    · cases hstep
    · by_cases hmeth : method = "POST"
      · simp only [handleSession, hmeth, ne_eq, not_true_eq_false, if_false,
          Option.some.injEq, Prod.mk.injEq] at hstep
        obtain ⟨rfl, _⟩ := hstep
        exact ⟨wk, by
          show (s.workers ++ [_])[w]? = some wk
          rw [List.getElem?_append_left hwlt]; exact hw, rfl, rfl⟩
      · simp only [handleSession, hmeth, ne_eq, not_false_eq_true, if_true,
          Option.some.injEq, Prod.mk.injEq] at hstep
        obtain ⟨rfl, _⟩ := hstep
        exact hsame rfl
  | sessions method =>
    simp only [System.step, Option.some.injEq, Prod.mk.injEq] at hstep
    obtain ⟨rfl, _⟩ := hstep
    exact hsame rfl
  | prepare method id1 =>
    simp only [System.step, Option.some.injEq] at hstep
    have := perform_workers s (handlePrepare s.sessions method id1)
    rw [hstep] at this
    exact hsame this
  | commit method id1 =>
    simp only [System.step, Option.some.injEq] at hstep
    have := perform_workers s (handleCommit s.sessions method id1)
    rw [hstep] at this
    exact hsame this
  | workerEvent w1 =>
    simp only [System.step] at hstep
    split at hstep
    · cases hstep
    · rename_i wk0 hw0
      split at hstep
      · cases hstep
      · split at hstep
        · cases hstep
        · split at hstep
          · cases hstep
          · simp only [Option.some.injEq, Prod.mk.injEq] at hstep
            obtain ⟨rfl, _⟩ := hstep
            by_cases hww : w1 = w
            · subst hww
              rw [hw] at hw0
              cases hw0
              refine ⟨_, List.getElem?_set_self hwlt, ?_, ?_⟩ <;> split <;> rfl
            · exact ⟨wk, by
                show (s.workers.set w1 _)[w]? = some wk
                rw [List.getElem?_set_ne hww]; exact hw, rfl, rfl⟩
  | workerTimeout w1 =>
    simp only [System.step] at hstep
    split at hstep
    · cases hstep
    · rename_i wk0 hw0
      split at hstep
      · cases hstep
      · simp only [Option.some.injEq, Prod.mk.injEq] at hstep
        obtain ⟨rfl, _⟩ := hstep
        by_cases hww : w1 = w
        · subst hww
          rw [hw] at hw0
          cases hw0
          exact ⟨_, List.getElem?_set_self hwlt, rfl, rfl⟩
        · exact ⟨wk, by
            show (s.workers.set w1 _)[w]? = some wk
            rw [List.getElem?_set_ne hww]; exact hw, rfl, rfl⟩

/-- A run keeps every worker at its position, with its session and its channel. -/
theorem run_worker_kept {w : Nat} :
    ∀ (acts : List Action) {s s1 : System} {out : List Response} {wk : Worker},
      s.run acts = some (s1, out) → s.workers[w]? = some wk →
      ∃ wk1, s1.workers[w]? = some wk1 ∧ wk1.id = wk.id ∧ wk1.events = wk.events := by
  intro acts
  induction acts with
  | nil =>
    intro s s1 out wk hrun hw
    simp only [System.run, Option.some.injEq, Prod.mk.injEq] at hrun
    rw [← hrun.1]
    exact ⟨wk, hw, rfl, rfl⟩
  | cons a as ih =>
    intro s s1 out wk hrun hw
    obtain ⟨sa, _, _, hstep, hrest, _⟩ := run_cons hrun
    obtain ⟨wka, hwa, hida, heva⟩ := step_worker_kept hstep hw
    obtain ⟨wk1, hw1, hid1, hev1⟩ := ih hrest hwa
    exact ⟨wk1, hw1, by rw [hid1, hida], by rw [hev1, heva]⟩

/-- A step that is foreign to a session and its worker leaves the worker, the entry of
the session and the channel of the worker as they are. -/
theorem step_frame {s s1 : System} {out : List Response} {a : Action} (h : Inv s)
    (hstep : s.step a = some (s1, out)) {w : Nat} {wk : Worker}
    (hw : s.workers[w]? = some wk) (hf : Foreign wk.id w a) :
    s1.workers[w]? = some wk ∧ s1.sessions.lookup wk.id = s.sessions.lookup wk.id ∧
      s1.chans[w]? = s.chans[w]? := by
  obtain ⟨hev, m, ch, hm, hrc, hch, _⟩ := h.workerOk w wk hw
  have hwlt : w < s.workers.length := (List.getElem?_eq_some.mp hw).1
  have hclt : w < s.chans.length := (List.getElem?_eq_some.mp hch).1
  have hsend : ∀ (o : Outcome) (method id1 : String), id1 ≠ wk.id →
      (o = handlePrepare s.sessions method id1 ∨ o = handleCommit s.sessions method id1) →
      ∀ n event r, o = .send (some n) event r → n ≠ w := by
    intro o method id1 hne ho n event r hon hnw
    have hpass : handlePrepare s.sessions method id1 = .send (some n) event r ∨
        handleCommit s.sessions method id1 = .send (some n) event r := by
      rcases ho with ho | ho
      · exact Or.inl (by rw [← ho]; exact hon)
      · exact Or.inr (by rw [← ho]; exact hon)
    obtain ⟨m1, hm1, hrc1⟩ := send_of_entry hpass
    obtain ⟨w0, wk0, _, hw0, hid0, hrc0, _⟩ := owner_of h hm1
    rw [hrc1] at hrc0
    have hw0w : w0 = w := by
      cases hrc0
      exact hnw
    subst hw0w
    rw [hw] at hw0
    cases hw0
    exact hne hid0.symm
  cases a with
  | tick d =>
    simp only [System.step, Option.some.injEq, Prod.mk.injEq] at hstep
    obtain ⟨rfl, _⟩ := hstep
    exact ⟨hw, rfl, rfl⟩
  | session method sessionId =>
    simp only [System.step] at hstep
    split at hstep
    · cases hstep
    · rename_i hguard
      by_cases hmeth : method = "POST"
      · have hne : wk.id ≠ sessionId := by
          intro he
          exact hguard ⟨hmeth, by rw [← he, hm]; rfl⟩
        simp only [handleSession, hmeth, ne_eq, not_true_eq_false, if_false,
          Option.some.injEq, Prod.mk.injEq] at hstep
        obtain ⟨rfl, _⟩ := hstep
        refine ⟨?_, ?_, ?_⟩
        · show (s.workers ++ [_])[w]? = some wk
          rw [List.getElem?_append_left hwlt]; exact hw
        · exact AList.lookup_insert_ne hne
        · show (s.chans ++ [_])[w]? = s.chans[w]?
          exact List.getElem?_append_left hclt
      · simp only [handleSession, hmeth, ne_eq, not_false_eq_true, if_true,
          Option.some.injEq, Prod.mk.injEq] at hstep
        obtain ⟨rfl, _⟩ := hstep
        exact ⟨hw, rfl, rfl⟩
  | sessions method =>
    simp only [System.step, Option.some.injEq, Prod.mk.injEq] at hstep
    obtain ⟨rfl, _⟩ := hstep
    exact ⟨hw, rfl, rfl⟩
  | prepare method id1 =>
    simp only [System.step, Option.some.injEq] at hstep
    have h1 := perform_workers s (handlePrepare s.sessions method id1)
    have h2 := perform_sessions s (handlePrepare s.sessions method id1)
    have h3 := perform_chans s (handlePrepare s.sessions method id1) w
      (hsend _ method id1 hf (Or.inl rfl))
    rw [hstep] at h1 h2 h3
    exact ⟨by rw [h1]; exact hw, by rw [h2], h3⟩
  | commit method id1 =>
    simp only [System.step, Option.some.injEq] at hstep
    have h1 := perform_workers s (handleCommit s.sessions method id1)
    have h2 := perform_sessions s (handleCommit s.sessions method id1)
    have h3 := perform_chans s (handleCommit s.sessions method id1) w
      (hsend _ method id1 hf (Or.inr rfl))
    rw [hstep] at h1 h2 h3
    exact ⟨by rw [h1]; exact hw, by rw [h2], h3⟩
  | workerEvent w1 =>
    have hww : w1 ≠ w := hf
    simp only [System.step] at hstep
    split at hstep
    · cases hstep
    · rename_i wk0 hw0
      have hev0 : wk0.events = w1 := (h.workerOk w1 wk0 hw0).1
      have hne : wk.id ≠ wk0.id := fun he => hww (h.unique w1 w wk0 wk hw0 hw he.symm)
      split at hstep
      · cases hstep
      · split at hstep
        · cases hstep
        · split at hstep
          · cases hstep
          · simp only [Option.some.injEq, Prod.mk.injEq] at hstep
            obtain ⟨rfl, _⟩ := hstep
            refine ⟨?_, ?_, ?_⟩
            · show (s.workers.set w1 _)[w]? = some wk
              rw [List.getElem?_set_ne hww]; exact hw
            · exact AList.lookup_insert_ne hne
            · show (s.chans.set wk0.events _)[w]? = s.chans[w]?
              rw [hev0, List.getElem?_set_ne hww]
  | workerTimeout w1 =>
    have hww : w1 ≠ w := hf
    simp only [System.step] at hstep
    split at hstep
    · cases hstep
    · rename_i wk0 hw0
      have hne : wk.id ≠ wk0.id := fun he => hww (h.unique w1 w wk0 wk hw0 hw he.symm)
      split at hstep
      · cases hstep
      · simp only [Option.some.injEq, Prod.mk.injEq] at hstep
        obtain ⟨rfl, _⟩ := hstep
        refine ⟨?_, ?_, rfl⟩
        · show (s.workers.set w1 _)[w]? = some wk
          rw [List.getElem?_set_ne hww]; exact hw
        · exact AList.lookup_insert_ne hne

/-- A run of steps foreign to a waiting session leaves it waiting as it was. -/
theorem run_frame {id : String} {w : Nat} {p : State} {buf : List State}
    {sendq : List Sender} :
    ∀ (acts : List Action) {s s1 : System} {out : List Response},
      (∀ a ∈ acts, Foreign id w a) → Inv s → Waiting s id w p buf sendq →
      s.run acts = some (s1, out) → Waiting s1 id w p buf sendq := by
  intro acts
  induction acts with
  | nil =>
    intro s s1 out _ _ hwait hrun
    simp only [System.run, Option.some.injEq, Prod.mk.injEq] at hrun
    rw [← hrun.1]
    exact hwait
  | cons a as ih =>
    intro s s1 out hfor hinv hwait hrun
    obtain ⟨sa, _, _, hstep, hrest, _⟩ := run_cons hrun
    refine ih (fun b hb => hfor b (List.mem_cons_of_mem _ hb)) (inv_step hinv a hstep) ?_ hrest
    obtain ⟨wk, hw, hid, hev, hrun1, hm, hch⟩ := hwait
    have hfa : Foreign wk.id w a := by
      rw [hid]
      exact hfor a (List.mem_cons_self _ _)
    obtain ⟨h1, h2, h3⟩ := step_frame hinv hstep hw hfa
    exact ⟨wk, h1, hid, hev, hrun1, by rw [← hid, h2, hid]; exact hm, by rw [h3]; exact hch⟩

end ThreePC

/-! ## Two requests for one session -/

namespace ThreePC

/-- From a waiting session in phase `Initialized` with an empty channel: `/prepare`, steps
foreign to the session, the event step of its worker, and steps foreign to the session.
The first response of the run is the success response of `/prepare`, and the session is
waiting in phase `PreparedToCommit` with an empty channel. -/
theorem prepare_half {s s4 : System} {id : String} {w : Nat} {out1 : List Response}
    (hinv : Inv s) (hwait : Waiting s id w StateInitialized [] []) (A1 B1 : List Action)
    (hA1 : ∀ a ∈ A1, Foreign id w a) (hB1 : ∀ a ∈ B1, Foreign id w a)
    (hrun : s.run (.prepare "PUT" id :: A1 ++ .workerEvent w :: B1) = some (s4, out1)) :
    out1.head? = some ⟨200, .object [("sessionId", id), ("status", "prepared-to-commit")]⟩ ∧
      Waiting s4 id w StatePreparedToCommit [] [] ∧ Inv s4 := by
  obtain ⟨sa, oa, ob, hrunA, hrunB, hout⟩ := run_append (.prepare "PUT" id :: A1) hrun
  obtain ⟨s1, o1, o2, hstep, hA, hoa⟩ := run_cons hrunA
  obtain ⟨s1', hstep1, hw1⟩ := prepare_waiting hwait
  rw [hstep1] at hstep
  simp only [Option.some.injEq, Prod.mk.injEq] at hstep
  obtain ⟨rfl, rfl⟩ := hstep
  have hinv1 := inv_step hinv _ hstep1
  have hwa := run_frame A1 hA1 hinv1 hw1 hA
  have hinva := inv_run A1 hinv1 hA
  obtain ⟨sb, o3, o4, hstepb, hB, _⟩ := run_cons hrunB
  obtain ⟨sb', hstepb1, hwb⟩ := event_waiting hwa
  rw [hstepb1] at hstepb
  simp only [Option.some.injEq, Prod.mk.injEq] at hstepb
  obtain ⟨rfl, _⟩ := hstepb
  have hinvb := inv_step hinva _ hstepb1
  simp only [List.head?_nil, Option.map_none', Option.toList_none, List.tail_nil] at hwb
  refine ⟨?_, run_frame B1 hB1 hinvb hwb hB, inv_run B1 hinvb hB⟩
  rw [hout, hoa]
  rfl

/-- From a waiting session in phase `PreparedToCommit` with an empty channel: `/commit`,
steps foreign to the session, the event step of its worker, and steps foreign to the
session. The first response of the run is the success response of `/commit`, and the
stored phase of the session is `Commited`. -/
theorem commit_half {s s8 : System} {id : String} {w : Nat} {out2 : List Response}
    (hinv : Inv s) (hwait : Waiting s id w StatePreparedToCommit [] []) (A2 B2 : List Action)
    (hA2 : ∀ a ∈ A2, Foreign id w a)
    (hrun : s.run (.commit "PUT" id :: A2 ++ .workerEvent w :: B2) = some (s8, out2)) :
    out2.head? = some ⟨200, .object [("sessionId", id), ("status", "commited")]⟩ ∧
      s8.phase id = some StateCommited ∧ Inv s8 := by
  obtain ⟨sa, oa, ob, hrunA, hrunB, hout⟩ := run_append (.commit "PUT" id :: A2) hrun
  obtain ⟨s1, o1, o2, hstep, hA, hoa⟩ := run_cons hrunA
  obtain ⟨s1', hstep1, hw1⟩ := commit_waiting hwait
  rw [hstep1] at hstep
  simp only [Option.some.injEq, Prod.mk.injEq] at hstep
  obtain ⟨rfl, rfl⟩ := hstep
  have hinv1 := inv_step hinv _ hstep1
  have hwa := run_frame A2 hA2 hinv1 hw1 hA
  have hinva := inv_run A2 hinv1 hA
  obtain ⟨sb, o3, o4, hstepb, hB, _⟩ := run_cons hrunB
  obtain ⟨sb', wkb, hstepb1, hpb, _⟩ := event_waiting_commit hwa
  rw [hstepb1] at hstepb
  simp only [Option.some.injEq, Prod.mk.injEq] at hstepb
  obtain ⟨rfl, _⟩ := hstepb
  have hinvb := inv_step hinva _ hstepb1
  refine ⟨?_, run_terminal (Or.inr rfl) B2 hinvb hpb hB, inv_run B2 hinvb hB⟩
  rw [hout, hoa]
  rfl

end ThreePC
